import Mathlib

/-!
Shallow embedding of the tic-tac-toe engine (`src/lib.rs`).

The Rust code mutates a `Board` in place; here every `&mut self` method
becomes a function that returns the updated `Board` (paired with its result
value when the Rust method returns one).  Randomness (`rand::thread_rng`)
is modelled by passing the drawn numbers as explicit arguments.  The
unbounded recursion of `minimax` is modelled with an explicit fuel
parameter; every caller in this development passes fuel `9`, which is
never exhausted on boards whose history and grid are consistent, because
a full grid (9 recorded moves) makes `change_board_state` report `DRAW`
or `RESULTED` and the recursion stops at the base cases.
-/

namespace TicTacToe

/-- `enum State` from the source. -/
inductive State where
  | DRAW
  | RESULTED
  | INPROGRESS
deriving DecidableEq, Repr

/-- `enum Player` from the source (also used as the cell value). -/
inductive Player where
  | X
  | O
  | EMPTY
deriving DecidableEq, Repr

instance : Fintype Player :=
  ⟨⟨{Player.X, Player.O, Player.EMPTY}, by decide⟩, by intro x; cases x <;> decide⟩

/-- `enum Difficulty` from the source. -/
inductive Difficulty where
  | EASY
  | MEDIUM
  | DIFFICULT
deriving DecidableEq, Repr

/-- The two error messages `make_move` can return (`JsValue` strings in the
source: "Illegal Position Supplied. Try Again." and
"Position Already Filled. Try Again"). -/
inductive MoveError where
  | OutOfRange
  | CellOccupied
deriving DecidableEq, Repr

/-- `struct Board` from the source. -/
structure Board where
  matrix : List Player
  moves : List Nat
  status : State
  turn : Player
  winner : Player
  difficulty : Difficulty
deriving DecidableEq, Repr

namespace Board

/-- `Board::new`. -/
def new (start_player : Player) (difficulty : Difficulty) : Board :=
  { matrix := [Player.EMPTY, Player.EMPTY, Player.EMPTY,
               Player.EMPTY, Player.EMPTY, Player.EMPTY,
               Player.EMPTY, Player.EMPTY, Player.EMPTY]
    moves := []
    status := State.INPROGRESS
    turn := start_player
    winner := Player.EMPTY
    difficulty := difficulty }

/-- `Board::get_current_turn`. -/
def get_current_turn (b : Board) : Player := b.turn

/-- Reading `self.matrix[i]`.  All reads performed by the source are at
indices `0..8` of a 9-element vector, so the default is never used on the
boards the program builds. -/
def mat (b : Board) (i : Nat) : Player := b.matrix.getD i Player.EMPTY

/-- `Board::change_turn`. -/
def change_turn (b : Board) : Board :=
  { b with turn :=
      match b.turn with
      | Player.X => Player.O
      | Player.O => Player.X
      | _ => b.turn }

end Board

/-- The win test of `change_board_state` for the last-touched cell
`move_position`: the four `*_complete` flags of the source (`bool`s built
from `==` chained with `&&`, joined with `||`).  `m i` abbreviates the
read `self.matrix[i]`. -/
def win_at (mtx : List Player) (move_position : Nat) : Bool :=
  let m := fun i => mtx.getD i Player.EMPTY
  let row := move_position / 3
  let col := move_position % 3
  let row_complete := (m move_position == m (row * 3))
    && (m (row * 3) == m (row * 3 + 1))
    && (m (row * 3 + 1) == m (row * 3 + 2))
  let col_complete := (m move_position == m col)
    && (m col == m (col + 3))
    && (m (col + 3) == m (col + 6))
  let main_diag_complete := (m move_position == m 0)
    && (m 0 == m 4) && (m 4 == m 8)
  let sec_diag_complete := (m move_position == m 2)
    && (m 2 == m 4) && (m 4 == m 6)
  row_complete || col_complete || main_diag_complete || sec_diag_complete

namespace Board

/-- `Board::change_board_state`. -/
def change_board_state (b : Board) : Board :=
  let len := b.moves.length
  if len = 0 then b
  else
    let move_position := (b.moves.getD (len - 1) 0)
    bif win_at b.matrix move_position then
      { b with status := State.RESULTED, winner := b.mat move_position }
    else if b.moves.length ≥ 9 then
      { b with status := State.DRAW }
    else
      { b with status := State.INPROGRESS }

/-- `Board::make_move`.  The Rust method takes `&mut self` and returns
`Result<(), JsValue>`; here it returns the result together with the board
after the call (unchanged on the error paths, exactly as in the source,
where the error branches return before any mutation). -/
def make_move (b : Board) (move_position : Nat) : Except MoveError Unit × Board :=
  if move_position > 8 then
    (Except.error MoveError.OutOfRange, b)
  else if b.moves.contains move_position then
    (Except.error MoveError.CellOccupied, b)
  else
    let b' := { b with
      matrix := b.matrix.set move_position b.turn
      moves := b.moves ++ [move_position] }
    (Except.ok (), b'.change_turn.change_board_state)

/-- `Board::undo_move`.  The source `unwrap`s the pop and panics on an
empty history (a documented precondition violation); that unreachable
path is modelled as the identity. -/
def undo_move (b : Board) : Board :=
  match b.moves.getLast? with
  | none => b
  | some move_position =>
    let b' := { b with
      moves := b.moves.dropLast
      matrix := b.matrix.set move_position Player.EMPTY }
    b'.change_turn.change_board_state

end Board

/-- `find_available_moves` from the source: indices of `EMPTY` cells in
ascending order. -/
def find_available_moves (b : Board) : List Nat :=
  ((b.matrix.enum.filter fun ip => ip.2 = Player.EMPTY).map Prod.fst)

/-- The body of the `minimax` move loop, on the accumulator
`(best_score, board)`: apply the move, evaluate the recursive call
`next` (the one-level-deeper `minimax`), update the running best
exactly as the source's two `if`s do, and undo the move. -/
def mm_step (next : Board → Int × Board) (is_max : Bool)
    (acc : Int × Board) (mv : Nat) : Int × Board :=
  let b1 := (acc.2.make_move mv).2
  let sb := next b1
  let best :=
    if is_max ∧ sb.1 > acc.1 then sb.1
    else if ¬is_max ∧ sb.1 < acc.1 then sb.1
    else acc.1
  (best, sb.2.undo_move)

/-- `minimax` from the source, with a fuel argument bounding the recursion
depth (the source recurses unboundedly; fuel `9` suffices for any board
whose grid fills up as its history grows, see the module comment).  The
Rust function takes `&mut board` and restores it before returning; here
the board travels through the fold exactly as the mutations happen, and
the final board is returned with the score.  When fuel runs out the move
loop is skipped, leaving the initial `best_score`, and the board is
returned as is. -/
def minimax (mover : Player) : Nat → Board → Int × Board
  | fuel, b =>
    if b.status = State.RESULTED then
      (if b.winner ≠ mover then 1 else -1, b)
    else if b.status = State.DRAW then (0, b)
    else
      let is_max := b.turn != mover
      let init : Int := if is_max then -1000 else 1000
      match fuel with
      | 0 => (init, b)
      | fuel + 1 =>
        (find_available_moves b).foldl (mm_step (minimax mover fuel) is_max)
          (init, b)

namespace Board

/-- The perspective player `get_best_move` hands to `minimax` for a
candidate move: in the source it is `self.turn.clone()` read *after*
`self.make_move(mv)` has run. -/
def candidate_perspective (b : Board) (mv : Nat) : Player :=
  ((b.make_move mv).2).turn

/-- One iteration of the `get_best_move` loop, on the accumulator
`(best_score, best_move, board)`: apply the candidate, score it with
`minimax` from the perspective `candidate_perspective` (the turn *after*
the candidate was applied), undo, and keep the candidate when its score
strictly improves. -/
def best_step (acc : Int × Nat × Board) (mv : Nat) : Int × Nat × Board :=
  let bb := acc.2.2
  let b1 := (bb.make_move mv).2
  let sb := minimax (bb.candidate_perspective mv) 9 b1
  if sb.1 > acc.1 then (sb.1, mv, sb.2.undo_move)
  else (acc.1, acc.2.1, sb.2.undo_move)

/-- `Board::get_best_move`.  Returns the chosen index together with the
board as `get_best_move` leaves it (the source takes `&mut self`). -/
def get_best_move (b : Board) : Nat × Board :=
  let r := (find_available_moves b).foldl best_step (-1000, 0, b)
  (r.2.1, r.2.2)

/-- `Board::get_random_move`.  `rng.gen_range(0, available_moves.len())`
is modelled by the explicit argument `move_index`, which the random
source guarantees to be below `available_moves.len()`. -/
def get_random_move (b : Board) (move_index : Nat) : Nat :=
  (find_available_moves b).getD move_index 0

/-- `Board::get_medium_move`.  `rng.gen_range(0, 100)` is modelled by the
explicit argument `random_num < 100`; `move_index` feeds the possible
`get_random_move` call. -/
def get_medium_move (b : Board) (random_num : Nat) (move_index : Nat) :
    Nat × Board :=
  if random_num < 75 then b.get_best_move
  else (b.get_random_move move_index, b)

/-- `Board::get_next_move`, dispatching on the difficulty. -/
def get_next_move (b : Board) (random_num : Nat) (move_index : Nat) :
    Nat × Board :=
  match b.difficulty with
  | Difficulty.EASY => (b.get_random_move move_index, b)
  | Difficulty.MEDIUM => b.get_medium_move random_num move_index
  | Difficulty.DIFFICULT => b.get_best_move

/-- `Board::get_board_state`. -/
def get_board_state (b : Board) : State := b.status

/-- `Board::get_winner`. -/
def get_winner (b : Board) : Player := b.winner

end Board

/-- Apply a sequence of moves through `make_move`, failing if any of them
is rejected. -/
def apply_moves (b : Board) : List Nat → Option Board
  | [] => some b
  | p :: ps =>
    match b.make_move p with
    | (Except.ok _, b') => apply_moves b' ps
    | (Except.error _, _) => none

/-- Iterate `undo_move`. -/
def undo_times : Nat → Board → Board
  | 0, b => b
  | n + 1, b => undo_times n b.undo_move

section BasicLemmas

/-- `change_turn` only touches `turn`. -/
theorem change_turn_matrix (b : Board) : b.change_turn.matrix = b.matrix := rfl

theorem change_turn_moves (b : Board) : b.change_turn.moves = b.moves := rfl

theorem change_turn_status (b : Board) : b.change_turn.status = b.status := rfl

theorem change_turn_winner (b : Board) : b.change_turn.winner = b.winner := rfl

theorem change_turn_difficulty (b : Board) :
    b.change_turn.difficulty = b.difficulty := rfl

/-- `change_board_state` only rewrites `status` and `winner`. -/
theorem change_board_state_eq (b : Board) :
    ∃ s w, b.change_board_state = { b with status := s, winner := w } := by
  unfold Board.change_board_state
  simp only [Bool.cond_eq_ite]
  split
  · exact ⟨b.status, b.winner, rfl⟩
  · split
    · exact ⟨_, _, rfl⟩
    · split
      · exact ⟨_, b.winner, rfl⟩
      · exact ⟨_, b.winner, rfl⟩

theorem change_board_state_matrix (b : Board) :
    b.change_board_state.matrix = b.matrix := by
  obtain ⟨s, w, h⟩ := change_board_state_eq b
  rw [h]

theorem change_board_state_moves (b : Board) :
    b.change_board_state.moves = b.moves := by
  obtain ⟨s, w, h⟩ := change_board_state_eq b
  rw [h]

theorem change_board_state_turn (b : Board) :
    b.change_board_state.turn = b.turn := by
  obtain ⟨s, w, h⟩ := change_board_state_eq b
  rw [h]

theorem change_board_state_difficulty (b : Board) :
    b.change_board_state.difficulty = b.difficulty := by
  obtain ⟨s, w, h⟩ := change_board_state_eq b
  rw [h]

theorem make_move_fst_ok_iff (b : Board) (p : Nat) :
    (b.make_move p).1 = Except.ok () ↔ p ≤ 8 ∧ p ∉ b.moves := by
  unfold Board.make_move
  by_cases h8 : p > 8
  · simp [h8]
  · by_cases hc : p ∈ b.moves
    · simp [h8, List.elem_eq_mem, hc]
    · simp [h8, List.elem_eq_mem, hc]
      omega

/-- The successful branch of `make_move`, explicitly. -/
theorem make_move_ok_eq (b : Board) (p : Nat) (h8 : p ≤ 8) (hm : p ∉ b.moves) :
    b.make_move p =
      (Except.ok (),
        ({ b with matrix := b.matrix.set p b.turn,
                  moves := b.moves ++ [p] } : Board).change_turn.change_board_state) := by
  unfold Board.make_move
  have h8' : ¬ p > 8 := by omega
  simp [h8', List.elem_eq_mem, hm]

theorem make_move_ok_moves (b : Board) (p : Nat) (h8 : p ≤ 8) (hm : p ∉ b.moves) :
    ((b.make_move p).2).moves = b.moves ++ [p] := by
  rw [make_move_ok_eq b p h8 hm, change_board_state_moves, change_turn_moves]

theorem make_move_ok_matrix (b : Board) (p : Nat) (h8 : p ≤ 8) (hm : p ∉ b.moves) :
    ((b.make_move p).2).matrix = b.matrix.set p b.turn := by
  rw [make_move_ok_eq b p h8 hm, change_board_state_matrix, change_turn_matrix]

theorem make_move_ok_turn (b : Board) (p : Nat) (h8 : p ≤ 8) (hm : p ∉ b.moves) :
    ((b.make_move p).2).turn = b.change_turn.turn := by
  rw [make_move_ok_eq b p h8 hm, change_board_state_turn]
  simp [Board.change_turn]

theorem make_move_ok_difficulty (b : Board) (p : Nat) (h8 : p ≤ 8) (hm : p ∉ b.moves) :
    ((b.make_move p).2).difficulty = b.difficulty := by
  rw [make_move_ok_eq b p h8 hm, change_board_state_difficulty, change_turn_difficulty]

/-- `change_turn`'s effect on `turn` depends only on `turn`. -/
theorem change_turn_turn_congr (x y : Board) (h : x.turn = y.turn) :
    x.change_turn.turn = y.change_turn.turn := by
  simp [Board.change_turn, h]

theorem change_turn_turn_ne (b : Board)
    (ht : b.turn = Player.X ∨ b.turn = Player.O) :
    b.change_turn.turn ≠ b.turn := by
  rcases ht with h | h <;> simp [Board.change_turn, h]

theorem change_turn_turn_XO (b : Board)
    (ht : b.turn = Player.X ∨ b.turn = Player.O) :
    b.change_turn.turn = Player.X ∨ b.change_turn.turn = Player.O := by
  rcases ht with h | h <;> simp [Board.change_turn, h]

theorem change_turn_turn_invol (b : Board) :
    b.change_turn.change_turn.turn = b.turn := by
  cases h : b.turn <;> simp [Board.change_turn, h]

theorem undo_move_turn (b : Board) (hne : b.moves ≠ []) :
    b.undo_move.turn = b.change_turn.turn := by
  unfold Board.undo_move
  cases hL : b.moves.getLast? with
  | none => exact absurd (List.getLast?_eq_none_iff.mp hL) hne
  | some p =>
    rw [change_board_state_turn]
    simp [Board.change_turn]

end BasicLemmas

section C1C6C10

/-- C1, counterexample: on the fresh (non-terminal) board with `X` to
move, `0` is an available candidate, yet the perspective handed to
`minimax` for it is not the mover `X` (the turn before the candidate was
applied) — it is the post-move turn `O`. -/
theorem c1_perspective_counterexample :
    (Board.new Player.X Difficulty.DIFFICULT).status = State.INPROGRESS ∧
    0 ∈ find_available_moves (Board.new Player.X Difficulty.DIFFICULT) ∧
    (Board.new Player.X Difficulty.DIFFICULT).candidate_perspective 0 ≠
      (Board.new Player.X Difficulty.DIFFICULT).turn := by
  refine ⟨rfl, by decide, by decide⟩

/-- C1, amended: for every candidate move `get_best_move` successfully
applies, the perspective player passed to the recursive `minimax` call is
the player whose turn it is *after* the candidate was applied — the
mover's opponent — not the mover. -/
theorem c1_perspective_is_post_move_turn (b : Board) (mv : Nat)
    (hok : (b.make_move mv).1 = Except.ok ())
    (ht : b.turn = Player.X ∨ b.turn = Player.O) :
    b.candidate_perspective mv = b.change_turn.turn ∧
    b.candidate_perspective mv ≠ b.turn := by
  obtain ⟨h8, hm⟩ := (make_move_fst_ok_iff b mv).mp hok
  unfold Board.candidate_perspective
  rw [make_move_ok_turn b mv h8 hm]
  exact ⟨rfl, change_turn_turn_ne b ht⟩

/-- C1, witness for the amended theorem at the fresh board and
candidate `0`. -/
theorem c1_perspective_witness :
    (Board.new Player.X Difficulty.DIFFICULT).candidate_perspective 0 =
      (Board.new Player.X Difficulty.DIFFICULT).change_turn.turn ∧
    (Board.new Player.X Difficulty.DIFFICULT).candidate_perspective 0 ≠
      (Board.new Player.X Difficulty.DIFFICULT).turn :=
  c1_perspective_is_post_move_turn (Board.new Player.X Difficulty.DIFFICULT) 0
    rfl (Or.inl rfl)

/-- C6: `make_move` with a position above `8` fails with `OutOfRange`,
and with a position at most `8` that is already in the history fails with
`CellOccupied`; in both cases the returned board is exactly the input
board. -/
theorem c6_make_move_rejects (b : Board) (p : Nat) :
    (p > 8 → b.make_move p = (Except.error MoveError.OutOfRange, b)) ∧
    (p ≤ 8 → p ∈ b.moves →
      b.make_move p = (Except.error MoveError.CellOccupied, b)) := by
  constructor
  · intro h8
    unfold Board.make_move
    simp [h8]
  · intro h8 hm
    unfold Board.make_move
    have h8' : ¬ p > 8 := by omega
    simp [h8', List.elem_eq_mem, hm]

/-- C6, witness: both failure modes on the board with history `[0]`. -/
theorem c6_make_move_rejects_witness :
    (((Board.new Player.X Difficulty.EASY).make_move 0).2.make_move 9 =
      (Except.error MoveError.OutOfRange,
        ((Board.new Player.X Difficulty.EASY).make_move 0).2)) ∧
    (((Board.new Player.X Difficulty.EASY).make_move 0).2.make_move 0 =
      (Except.error MoveError.CellOccupied,
        ((Board.new Player.X Difficulty.EASY).make_move 0).2)) :=
  ⟨(c6_make_move_rejects _ 9).1 (by decide),
   (c6_make_move_rejects _ 0).2 (by decide) (by decide)⟩

/-- C10: `make_move` never looks at `status`: on a `RESULTED` board any
in-range, unoccupied position is accepted, the move is appended to the
history, and the board really changes. -/
theorem c10_make_move_ignores_status (b : Board) (p : Nat)
    (hres : b.status = State.RESULTED) (h8 : p ≤ 8) (hm : p ∉ b.moves) :
    (b.make_move p).1 = Except.ok () ∧
    ((b.make_move p).2).moves = b.moves ++ [p] ∧
    (b.make_move p).2 ≠ b := by
  refine ⟨(make_move_fst_ok_iff b p).mpr ⟨h8, hm⟩, make_move_ok_moves b p h8 hm, ?_⟩
  intro hEq
  have hmv := congrArg Board.moves hEq
  rw [make_move_ok_moves b p h8 hm] at hmv
  have := congrArg List.length hmv
  simp at this

/-- The board reached from a fresh `X` board by the moves `0,3,1,4,2`:
X has completed the top row, so its status is `RESULTED`. -/
def wonBoard : Board :=
  ((((((Board.new Player.X Difficulty.EASY).make_move 0).2.make_move 3).2.make_move
      1).2.make_move 4).2.make_move 2).2

/-- C10, witness: `wonBoard` is `RESULTED`, yet playing `7` still
succeeds and extends the history. -/
theorem c10_make_move_ignores_status_witness :
    (wonBoard.make_move 7).1 = Except.ok () ∧
    ((wonBoard.make_move 7).2).moves = wonBoard.moves ++ [7] ∧
    (wonBoard.make_move 7).2 ≠ wonBoard :=
  c10_make_move_ignores_status wonBoard 7 (by decide) (by decide) (by decide)

end C1C6C10

section C9

/-- The turn after a successful sequence of moves is the starting turn
for an even number of moves, and the flipped turn for an odd number. -/
theorem apply_moves_turn (ps : List Nat) (b b' : Board)
    (ht : b.turn = Player.X ∨ b.turn = Player.O)
    (h : apply_moves b ps = some b') :
    b'.turn = if ps.length % 2 = 0 then b.turn else b.change_turn.turn := by
  induction ps generalizing b with
  | nil =>
    unfold apply_moves at h
    cases h
    simp
  | cons p ps ih =>
    unfold apply_moves at h
    rcases hmk : b.make_move p with ⟨r, b1⟩
    rw [hmk] at h
    cases r with
    | error e => exact absurd h (by simp)
    | ok u =>
      cases u
      have hok : (b.make_move p).1 = Except.ok () := by rw [hmk]
      obtain ⟨h8, hm⟩ := (make_move_fst_ok_iff b p).mp hok
      have hturn : b1.turn = b.change_turn.turn := by
        have := make_move_ok_turn b p h8 hm
        rw [hmk] at this
        exact this
      have ht1 : b1.turn = Player.X ∨ b1.turn = Player.O := by
        rw [hturn]
        exact change_turn_turn_XO b ht
      have hrec := ih b1 ht1 h
      have hflip : b1.change_turn.turn = b.turn := by
        rw [change_turn_turn_congr b1 b.change_turn hturn, change_turn_turn_invol]
      by_cases hp : ps.length % 2 = 0
      · have h1 : (p :: ps).length % 2 = 1 := by simp [List.length_cons]; omega
        rw [h1] at *
        simp only [hp, if_pos] at hrec
        simp [hrec, hturn]
      · have h1 : (p :: ps).length % 2 = 0 := by simp [List.length_cons]; omega
        rw [h1]
        simp only [hp, if_neg, if_false] at hrec
        simp [hrec, hflip]

/-- C9: after `N` successful moves from a fresh board the turn is the
starting player for even `N` and the other player for odd `N`; moreover
every successful move and every undo (on a non-empty history) flips the
turn between `X` and `O`, never repeating. -/
theorem c9_turn_alternation (start : Player) (d : Difficulty) (ps : List Nat)
    (b' : Board) (hs : start = Player.X ∨ start = Player.O)
    (h : apply_moves (Board.new start d) ps = some b') :
    (ps.length % 2 = 0 → b'.turn = start) ∧
    (ps.length % 2 = 1 → b'.turn = (Board.new start d).change_turn.turn ∧
      b'.turn ≠ start) ∧
    (∀ (b : Board) (p : Nat),
      b.turn = Player.X ∨ b.turn = Player.O →
      (b.make_move p).1 = Except.ok () →
      ((b.make_move p).2).turn = b.change_turn.turn ∧
      ((b.make_move p).2).turn ≠ b.turn) ∧
    (∀ b : Board,
      b.turn = Player.X ∨ b.turn = Player.O →
      b.moves ≠ [] →
      b.undo_move.turn = b.change_turn.turn ∧ b.undo_move.turn ≠ b.turn) := by
  have hparity := apply_moves_turn ps (Board.new start d) b' hs h
  have hstart : (Board.new start d).turn = start := rfl
  refine ⟨?_, ?_, ?_, ?_⟩
  · intro he
    rw [he] at hparity
    simpa using hparity
  · intro ho
    rw [ho] at hparity
    simp at hparity
    refine ⟨hparity, ?_⟩
    rw [hparity]
    exact change_turn_turn_ne (Board.new start d) hs
  · intro b p htb hok
    obtain ⟨h8, hm⟩ := (make_move_fst_ok_iff b p).mp hok
    exact ⟨make_move_ok_turn b p h8 hm, by
      rw [make_move_ok_turn b p h8 hm]
      exact change_turn_turn_ne b htb⟩
  · intro b htb hne
    exact ⟨undo_move_turn b hne, by
      rw [undo_move_turn b hne]
      exact change_turn_turn_ne b htb⟩

/-- C9, witness at the two-move sequence `0, 4` from a fresh `X` board. -/
theorem c9_turn_alternation_witness :
    ((((Board.new Player.X Difficulty.EASY).make_move 0).2).make_move 4).2.turn =
      Player.X :=
  (c9_turn_alternation Player.X Difficulty.EASY [0, 4] _ (Or.inl rfl) rfl).1 rfl

end C9

section Machinery

/-- The status `change_board_state` computes, as a pure function of the
grid and the history (for an empty history it is `INPROGRESS`, the value
a fresh board carries). -/
def statusOf (mtx : List Player) (ms : List Nat) : State :=
  if ms.length = 0 then State.INPROGRESS
  else if win_at mtx (ms.getD (ms.length - 1) 0) then State.RESULTED
  else if ms.length ≥ 9 then State.DRAW
  else State.INPROGRESS

theorem change_board_state_empty (b : Board) (h : b.moves = []) :
    b.change_board_state = b := by
  unfold Board.change_board_state
  simp [h]

theorem change_board_state_status (b : Board) (h : b.moves ≠ []) :
    b.change_board_state.status = statusOf b.matrix b.moves := by
  have hl : ¬ b.moves.length = 0 := by simpa using h
  unfold Board.change_board_state statusOf
  simp only [hl, if_false, Bool.cond_eq_ite]
  split
  · rfl
  · split <;> rfl

theorem change_board_state_winner_of_win (b : Board) (h : b.moves ≠ [])
    (hw : win_at b.matrix (b.moves.getD (b.moves.length - 1) 0) = true) :
    b.change_board_state.winner =
      b.matrix.getD (b.moves.getD (b.moves.length - 1) 0) Player.EMPTY := by
  have hl : ¬ b.moves.length = 0 := by simpa using h
  unfold Board.change_board_state
  simp only [hl, if_false, Bool.cond_eq_ite, hw, if_true, if_pos]
  rfl

theorem change_board_state_winner_of_no_win (b : Board)
    (hw : ¬ win_at b.matrix (b.moves.getD (b.moves.length - 1) 0) = true) :
    b.change_board_state.winner = b.winner := by
  by_cases h0 : b.moves = []
  · rw [change_board_state_empty b h0]
  · have hl : ¬ b.moves.length = 0 := by simpa using h0
    unfold Board.change_board_state
    simp only [hl, if_false, Bool.cond_eq_ite, hw]
    split
    · next hcontra => exact absurd hcontra (by simp)
    · split <;> rfl

/-- The state invariant maintained by valid play: a 9-cell grid, an
`X`/`O` turn, a history that matches the grid's occupied cells exactly,
and a `status` field equal to what recomputation yields. -/
structure Good (b : Board) : Prop where
  mlen : b.matrix.length = 9
  turnXO : b.turn = Player.X ∨ b.turn = Player.O
  empty_of_not_mem : ∀ i : Nat, i ∉ b.moves → b.matrix.getD i Player.EMPTY = Player.EMPTY
  filled_of_mem : ∀ p ∈ b.moves, b.matrix.getD p Player.EMPTY ≠ Player.EMPTY
  bounded : ∀ p ∈ b.moves, p ≤ 8
  nodup : b.moves.Nodup
  consistent : b.status = statusOf b.matrix b.moves

theorem getD_set_ne (m : List Player) (p i : Nat) (t : Player) (h : p ≠ i) :
    (m.set p t).getD i Player.EMPTY = m.getD i Player.EMPTY := by
  simp [List.getD_eq_getElem?_getD, List.getElem?_set_ne h]

theorem getD_set_self (m : List Player) (p : Nat) (t : Player) (h : p < m.length) :
    (m.set p t).getD p Player.EMPTY = t := by
  simp [List.getD_eq_getElem?_getD, List.getElem?_set_self h]

theorem set_getD_self (m : List Player) (p : Nat)
    (h : m.getD p Player.EMPTY = Player.EMPTY) :
    m.set p Player.EMPTY = m := by
  by_cases hp : p < m.length
  · apply List.ext_getElem (by simp)
    intro i h1 h2
    rw [List.getElem_set]
    split
    · next heq =>
      subst heq
      rw [List.getD_eq_getElem?_getD] at h
      rw [List.getElem?_eq_getElem hp] at h
      simpa using h.symm
    · rfl
  · exact List.set_eq_of_length_le (by omega)

theorem good_new (s : Player) (d : Difficulty) (hs : s = Player.X ∨ s = Player.O) :
    Good (Board.new s d) := by
  refine ⟨rfl, hs, ?_, ?_, ?_, ?_, rfl⟩
  · intro i _
    have : (Board.new s d).matrix = List.replicate 9 Player.EMPTY := rfl
    rw [this, List.getD_eq_getElem?_getD, List.getElem?_replicate]
    split <;> rfl
  · intro p hp
    exact absurd hp (by simp [Board.new])
  · intro p hp
    exact absurd hp (by simp [Board.new])
  · exact List.nodup_nil

/-- A successful `make_move` preserves the invariant. -/
theorem good_make_move (b : Board) (p : Nat) (G : Good b)
    (h8 : p ≤ 8) (hm : p ∉ b.moves) : Good ((b.make_move p).2) := by
  have hmat := make_move_ok_matrix b p h8 hm
  have hmov := make_move_ok_moves b p h8 hm
  have htrn := make_move_ok_turn b p h8 hm
  have hplen : p < b.matrix.length := by rw [G.mlen]; omega
  have htE : b.turn ≠ Player.EMPTY := by
    rcases G.turnXO with h | h <;> simp [h]
  constructor
  · rw [hmat]; simp [G.mlen]
  · rw [htrn]; exact change_turn_turn_XO b G.turnXO
  · intro i hi
    rw [hmov] at hi
    simp only [List.mem_append, List.mem_singleton, not_or] at hi
    rw [hmat, getD_set_ne b.matrix p i b.turn (fun hpi => hi.2 hpi.symm)]
    exact G.empty_of_not_mem i hi.1
  · intro q hq
    rw [hmov] at hq
    rw [hmat]
    rcases List.mem_append.mp hq with hq | hq
    · have hqp : p ≠ q := fun h => hm (h ▸ hq)
      rw [getD_set_ne b.matrix p q b.turn hqp]
      exact G.filled_of_mem q hq
    · have hqp : q = p := by simpa using hq
      subst hqp
      rw [getD_set_self b.matrix q b.turn hplen]
      exact htE
  · intro q hq
    rw [hmov] at hq
    rcases List.mem_append.mp hq with hq | hq
    · exact G.bounded q hq
    · have : q = p := by simpa using hq
      omega
  · rw [hmov]
    refine List.Nodup.append G.nodup (List.nodup_singleton p) ?_
    intro a ha hb
    have : a = p := by simpa using hb
    exact hm (this ▸ ha)
  · rw [hmat, hmov, make_move_ok_eq b p h8 hm]
    dsimp only
    rw [change_board_state_status]
    · simp [Board.change_turn]
    · simp [Board.change_turn]

/-- Agreement on every field except `winner`. -/
def Board.eqv (x y : Board) : Prop :=
  x.matrix = y.matrix ∧ x.moves = y.moves ∧ x.turn = y.turn ∧
  x.status = y.status ∧ x.difficulty = y.difficulty

theorem eqv_refl (x : Board) : Board.eqv x x := ⟨rfl, rfl, rfl, rfl, rfl⟩

theorem eqv_symm {x y : Board} (h : Board.eqv x y) : Board.eqv y x :=
  ⟨h.1.symm, h.2.1.symm, h.2.2.1.symm, h.2.2.2.1.symm, h.2.2.2.2.symm⟩

theorem eqv_trans {x y z : Board} (h : Board.eqv x y) (h' : Board.eqv y z) :
    Board.eqv x z :=
  ⟨h.1.trans h'.1, h.2.1.trans h'.2.1, h.2.2.1.trans h'.2.2.1,
   h.2.2.2.1.trans h'.2.2.2.1, h.2.2.2.2.trans h'.2.2.2.2⟩

theorem good_of_eqv {x b : Board} (G : Good b) (h : Board.eqv x b) : Good x := by
  obtain ⟨h1, h2, h3, h4, h5⟩ := h
  exact ⟨h1 ▸ G.mlen, h3 ▸ G.turnXO,
    fun i hi => h1 ▸ G.empty_of_not_mem i (h2 ▸ hi),
    fun p hp => h1 ▸ G.filled_of_mem p (h2 ▸ hp),
    fun p hp => G.bounded p (h2 ▸ hp), h2 ▸ G.nodup,
    by rw [h4, h1, h2]; exact G.consistent⟩

theorem change_turn_eqv {x y : Board} (h : Board.eqv x y) :
    Board.eqv x.change_turn y.change_turn := by
  obtain ⟨h1, h2, h3, h4, h5⟩ := h
  exact ⟨h1, h2, by simp [Board.change_turn, h3], h4, h5⟩

theorem change_board_state_eqv {x y : Board} (h : Board.eqv x y) :
    Board.eqv x.change_board_state y.change_board_state := by
  obtain ⟨h1, h2, h3, h4, h5⟩ := h
  by_cases h0 : x.moves = []
  · rw [change_board_state_empty x h0, change_board_state_empty y (h2 ▸ h0)]
    exact ⟨h1, h2, h3, h4, h5⟩
  · have h0' : y.moves ≠ [] := h2 ▸ h0
    obtain ⟨sx, wx, hx⟩ := change_board_state_eq x
    obtain ⟨sy, wy, hy⟩ := change_board_state_eq y
    refine ⟨by rw [hx, hy]; exact h1, by rw [hx, hy]; exact h2,
      by rw [hx, hy]; exact h3, ?_, by rw [hx, hy]; exact h5⟩
    rw [change_board_state_status x h0, change_board_state_status y h0', h1, h2]

/-- The failing branches of `make_move`, explicitly. -/
theorem make_move_fail_eq (b : Board) (p : Nat) (h : ¬ (p ≤ 8 ∧ p ∉ b.moves)) :
    b.make_move p =
      ((if p > 8 then Except.error MoveError.OutOfRange
        else Except.error MoveError.CellOccupied), b) := by
  unfold Board.make_move
  by_cases h8 : p > 8
  · simp [h8]
  · have hc : p ∈ b.moves := by
      rcases Decidable.not_and_iff_or_not.mp h with h' | h'
      · omega
      · exact Decidable.not_not.mp h'
    simp [h8, List.elem_eq_mem, hc]

theorem make_move_eqv {x y : Board} (p : Nat) (h : Board.eqv x y) :
    (x.make_move p).1 = (y.make_move p).1 ∧
    Board.eqv (x.make_move p).2 (y.make_move p).2 := by
  have h2 := h.2.1
  by_cases hok : p ≤ 8 ∧ p ∉ x.moves
  · rw [make_move_ok_eq x p hok.1 hok.2, make_move_ok_eq y p hok.1 (h2 ▸ hok.2)]
    refine ⟨rfl, ?_⟩
    apply change_board_state_eqv
    apply change_turn_eqv
    obtain ⟨h1, h2, h3, h4, h5⟩ := h
    exact ⟨by rw [h1, h3], by rw [h2], h3, h4, h5⟩
  · rw [make_move_fail_eq x p hok, make_move_fail_eq y p (by rw [← h2]; exact hok)]
    exact ⟨rfl, h⟩

theorem undo_move_eqv {x y : Board} (h : Board.eqv x y) :
    Board.eqv x.undo_move y.undo_move := by
  obtain ⟨h1, h2, h3, h4, h5⟩ := h
  unfold Board.undo_move
  rw [h2]
  cases hL : y.moves.getLast? with
  | none => exact ⟨h1, h2, h3, h4, h5⟩
  | some p =>
    apply change_board_state_eqv
    apply change_turn_eqv
    exact ⟨by rw [h1], rfl, h3, h4, h5⟩

/-- A single stone placed by `X` or `O` on an empty grid never completes
a line, so the recomputed status is `INPROGRESS`. -/
theorem statusOf_single (m : List Player) (p : Nat) (t : Player)
    (hlen : m.length = 9) (hall : ∀ i, m.getD i Player.EMPTY = Player.EMPTY)
    (ht : t ≠ Player.EMPTY) (h8 : p ≤ 8) :
    statusOf (m.set p t) [p] = State.INPROGRESS := by
  have hm : m = List.replicate 9 Player.EMPTY := by
    apply List.ext_getElem (by simpa using hlen)
    intro i h1 h2
    rw [List.getElem_replicate]
    have h3 := hall i
    rw [List.getD_eq_getElem?_getD, List.getElem?_eq_getElem h1] at h3
    simpa using h3
  subst hm
  interval_cases p <;> cases t <;> first
    | exact absurd rfl ht
    | decide

/-- `undo_move` on a board whose last recorded move is `p`, explicitly. -/
theorem undo_move_eq (b1 : Board) (p : Nat) (h : b1.moves.getLast? = some p) :
    b1.undo_move =
      ({ b1 with
          moves := b1.moves.dropLast
          matrix := b1.matrix.set p Player.EMPTY } : Board).change_turn.change_board_state := by
  unfold Board.undo_move
  rw [h]

/-- `change_turn` then `change_board_state` lands `eqv`-equal to `b`
whenever the input already carries `b`'s grid and history, the flipped
turn, and a status that recomputation reproduces. -/
theorem ct_cbs_eqv_target (z b : Board)
    (hmat : z.matrix = b.matrix) (hmov : z.moves = b.moves)
    (htrn : z.turn = b.change_turn.turn)
    (hdif : z.difficulty = b.difficulty)
    (hstat0 : b.moves = [] → z.status = b.status)
    (hcons : b.moves ≠ [] → b.status = statusOf b.matrix b.moves) :
    Board.eqv z.change_turn.change_board_state b := by
  have hCturn : z.change_turn.turn = b.turn := by
    rw [change_turn_turn_congr z b.change_turn htrn, change_turn_turn_invol]
  have hCmat : z.change_turn.matrix = b.matrix := by rw [change_turn_matrix]; exact hmat
  have hCmov : z.change_turn.moves = b.moves := by rw [change_turn_moves]; exact hmov
  have hCdif : z.change_turn.difficulty = b.difficulty := by
    rw [change_turn_difficulty]; exact hdif
  by_cases h0 : b.moves = []
  · have hCm0 : z.change_turn.moves = [] := by rw [hCmov, h0]
    rw [change_board_state_empty _ hCm0]
    refine ⟨hCmat, hCmov, hCturn, ?_, hCdif⟩
    rw [change_turn_status]
    exact hstat0 h0
  · have hCm0 : z.change_turn.moves ≠ [] := by rw [hCmov]; exact h0
    obtain ⟨s, w, hc⟩ := change_board_state_eq z.change_turn
    refine ⟨by rw [hc]; exact hCmat, by rw [hc]; exact hCmov,
      by rw [hc]; exact hCturn, ?_, by rw [hc]; exact hCdif⟩
    rw [change_board_state_status _ hCm0, hCmat, hCmov]
    exact (hcons h0).symm

/-- Undoing right after a successful move restores every field except
possibly `winner`. -/
theorem make_undo_restore (b : Board) (p : Nat) (G : Good b)
    (h8 : p ≤ 8) (hm : p ∉ b.moves) :
    Board.eqv ((b.make_move p).2.undo_move) b := by
  have hmat := make_move_ok_matrix b p h8 hm
  have hmov := make_move_ok_moves b p h8 hm
  have htrn := make_move_ok_turn b p h8 hm
  have hdif := make_move_ok_difficulty b p h8 hm
  have hlast : ((b.make_move p).2).moves.getLast? = some p := by
    rw [hmov]; exact List.getLast?_concat _
  rw [undo_move_eq _ p hlast]
  apply ct_cbs_eqv_target
  · show ((b.make_move p).2).matrix.set p Player.EMPTY = b.matrix
    rw [hmat, List.set_set]
    exact set_getD_self b.matrix p (G.empty_of_not_mem p hm)
  · show ((b.make_move p).2).moves.dropLast = b.moves
    rw [hmov]; exact List.dropLast_concat
  · exact htrn
  · exact hdif
  · intro h0
    show ((b.make_move p).2).status = b.status
    have G1 := good_make_move b p G h8 hm
    rw [G1.consistent, hmat, hmov, h0]
    have htE : b.turn ≠ Player.EMPTY := by
      rcases G.turnXO with h | h <;> simp [h]
    have hall : ∀ i, b.matrix.getD i Player.EMPTY = Player.EMPTY := by
      intro i
      exact G.empty_of_not_mem i (by rw [h0]; exact List.not_mem_nil i)
    rw [show ([] : List Nat) ++ [p] = [p] from rfl]
    rw [statusOf_single b.matrix p b.turn G.mlen hall htE h8]
    rw [G.consistent, h0]
    rfl
  · intro _
    exact G.consistent

theorem undo_times_succ (n : Nat) (b : Board) :
    undo_times (n + 1) b = (undo_times n b).undo_move := by
  induction n generalizing b with
  | zero => rfl
  | succ k ih => exact ih b.undo_move

/-- The invariant survives a whole successful sequence of moves. -/
theorem good_apply_moves (ps : List Nat) :
    ∀ b b' : Board, Good b → apply_moves b ps = some b' → Good b' := by
  induction ps with
  | nil =>
    intro b b' G h
    unfold apply_moves at h
    cases h
    exact G
  | cons p ps ih =>
    intro b b' G h
    unfold apply_moves at h
    rcases hmk : b.make_move p with ⟨r, b1⟩
    rw [hmk] at h
    cases r with
    | error e => exact absurd h (by simp)
    | ok u =>
      cases u
      have hok : (b.make_move p).1 = Except.ok () := by rw [hmk]
      obtain ⟨h8, hm⟩ := (make_move_fst_ok_iff b p).mp hok
      have G1 : Good b1 := by
        have := good_make_move b p G h8 hm
        rwa [hmk] at this
      exact ih b1 b' G1 h

/-- Undoing as many times as were applied returns (up to `winner`) to the
starting board. -/
theorem apply_undo_eqv (ps : List Nat) :
    ∀ b b' : Board, Good b → apply_moves b ps = some b' →
      Board.eqv (undo_times ps.length b') b := by
  induction ps with
  | nil =>
    intro b b' G h
    unfold apply_moves at h
    cases h
    exact eqv_refl b
  | cons p ps ih =>
    intro b b' G h
    unfold apply_moves at h
    rcases hmk : b.make_move p with ⟨r, b1⟩
    rw [hmk] at h
    cases r with
    | error e => exact absurd h (by simp)
    | ok u =>
      cases u
      have hok : (b.make_move p).1 = Except.ok () := by rw [hmk]
      obtain ⟨h8, hm⟩ := (make_move_fst_ok_iff b p).mp hok
      have G1 : Good b1 := by
        have := good_make_move b p G h8 hm
        rwa [hmk] at this
      have hrec := ih b1 b' G1 h
      rw [List.length_cons, undo_times_succ]
      have h1 := undo_move_eqv hrec
      have h2 : Board.eqv b1.undo_move b := by
        have := make_undo_restore b p G h8 hm
        rwa [hmk] at this
      exact eqv_trans h1 h2

end Machinery

section C7

/-- C7: applying any successful sequence of `N` moves to a fresh board
and then undoing `N` times yields all-empty cells, an empty history, the
starting turn, and an `INPROGRESS` status. -/
theorem c7_undo_inverts_apply (start : Player) (d : Difficulty)
    (ps : List Nat) (b' : Board)
    (hs : start = Player.X ∨ start = Player.O)
    (h : apply_moves (Board.new start d) ps = some b') :
    (undo_times ps.length b').matrix = List.replicate 9 Player.EMPTY ∧
    (undo_times ps.length b').moves = [] ∧
    (undo_times ps.length b').turn = start ∧
    (undo_times ps.length b').status = State.INPROGRESS := by
  have G := good_new start d hs
  obtain ⟨h1, h2, h3, h4, h5⟩ := apply_undo_eqv ps (Board.new start d) b' G h
  exact ⟨by rw [h1]; rfl, h2, h3, h4⟩

/-- C7, witness at the sequence `0, 3` from a fresh `X` board. -/
theorem c7_undo_inverts_apply_witness :
    (undo_times 2 (((Board.new Player.X Difficulty.EASY).make_move 0).2.make_move
      3).2).matrix = List.replicate 9 Player.EMPTY ∧
    (undo_times 2 (((Board.new Player.X Difficulty.EASY).make_move 0).2.make_move
      3).2).moves = [] ∧
    (undo_times 2 (((Board.new Player.X Difficulty.EASY).make_move 0).2.make_move
      3).2).turn = Player.X ∧
    (undo_times 2 (((Board.new Player.X Difficulty.EASY).make_move 0).2.make_move
      3).2).status = State.INPROGRESS :=
  c7_undo_inverts_apply Player.X Difficulty.EASY [0, 3] _ (Or.inl rfl) rfl

end C7

section MinimaxMachinery

theorem minimax_resulted (mover : Player) (fuel : Nat) (b : Board)
    (h : b.status = State.RESULTED) :
    minimax mover fuel b = (if b.winner ≠ mover then 1 else -1, b) := by
  unfold minimax
  simp [h]

theorem minimax_draw (mover : Player) (fuel : Nat) (b : Board)
    (h1 : b.status ≠ State.RESULTED) (h2 : b.status = State.DRAW) :
    minimax mover fuel b = (0, b) := by
  unfold minimax
  simp [h1, h2]

theorem minimax_zero (mover : Player) (b : Board)
    (h1 : b.status ≠ State.RESULTED) (h2 : b.status ≠ State.DRAW) :
    minimax mover 0 b =
      ((if (b.turn != mover) = true then (-1000 : Int) else 1000), b) := by
  unfold minimax
  simp [h1, h2]

theorem minimax_succ (mover : Player) (n : Nat) (b : Board)
    (h1 : b.status ≠ State.RESULTED) (h2 : b.status ≠ State.DRAW) :
    minimax mover (n + 1) b =
      (find_available_moves b).foldl (mm_step (minimax mover n) (b.turn != mover))
        ((if (b.turn != mover) = true then (-1000 : Int) else 1000), b) := by
  unfold minimax
  simp [h1, h2]

theorem minimax_zero_snd (mover : Player) (b : Board) :
    (minimax mover 0 b).2 = b := by
  unfold minimax
  split
  · rfl
  · split
    · rfl
    · rfl

/-- Membership in `find_available_moves` is exactly "in-range and empty". -/
theorem mem_find_available (b : Board) (mv : Nat) :
    mv ∈ find_available_moves b ↔
      mv < b.matrix.length ∧ b.matrix.getD mv Player.EMPTY = Player.EMPTY := by
  unfold find_available_moves
  simp only [List.mem_map, List.mem_filter]
  constructor
  · rintro ⟨⟨i, pl⟩, ⟨hmem, hpl⟩, rfl⟩
    have hget : b.matrix.get? i = some pl := List.mem_enum_iff_get?.mp hmem
    rw [List.get?_eq_getElem?] at hget
    have hlt : i < b.matrix.length := by
      by_contra hge
      rw [List.getElem?_eq_none (by omega)] at hget
      exact absurd hget (by simp)
    have hplE : pl = Player.EMPTY := by simpa using hpl
    refine ⟨hlt, ?_⟩
    rw [List.getD_eq_getElem?_getD, hget]
    simpa using hplE
  · rintro ⟨hlt, hD⟩
    refine ⟨(mv, Player.EMPTY), ⟨?_, by simp⟩, rfl⟩
    apply List.mem_enum_iff_get?.mpr
    show b.matrix.get? mv = some Player.EMPTY
    rw [List.get?_eq_getElem?, List.getElem?_eq_getElem hlt]
    rw [List.getD_eq_getElem?_getD, List.getElem?_eq_getElem hlt] at hD
    simpa using hD

/-- Every index in `find_available_moves` of a `Good` board is a legal,
unoccupied move. -/
theorem available_legal (b : Board) (G : Good b) (mv : Nat)
    (h : mv ∈ find_available_moves b) : mv ≤ 8 ∧ mv ∉ b.moves := by
  obtain ⟨hlt, hD⟩ := (mem_find_available b mv).mp h
  refine ⟨by rw [G.mlen] at hlt; omega, ?_⟩
  intro hmem
  exact G.filled_of_mem mv hmem hD

/-- The `minimax` move loop leaves the threaded board `eqv`-equal to the
entry board, provided the recursive evaluation `next` does so. -/
theorem foldl_mm_step_eqv (next : Board → Int × Board) (is_max : Bool)
    (b : Board) (G : Good b)
    (hnext : ∀ c : Board, Good c → Board.eqv (next c).2 c) :
    ∀ (l : List Nat) (acc : Int × Board),
      (∀ mv ∈ l, mv ∈ find_available_moves b) →
      Board.eqv acc.2 b →
      Board.eqv ((l.foldl (mm_step next is_max) acc).2) b := by
  intro l
  induction l with
  | nil =>
    intro acc _ hacc
    simpa using hacc
  | cons mv l ih =>
    intro acc hl hacc
    rw [List.foldl_cons]
    apply ih
    · intro m hm
      exact hl m (List.mem_cons_of_mem _ hm)
    · obtain ⟨h8, hmm⟩ := available_legal b G mv (hl mv (List.mem_cons_self _ _))
      have hGacc : Good acc.2 := good_of_eqv G hacc
      have hnm : mv ∉ acc.2.moves := by rw [hacc.2.1]; exact hmm
      have hG1 : Good ((acc.2.make_move mv).2) :=
        good_make_move acc.2 mv hGacc h8 hnm
      have hnx := hnext ((acc.2.make_move mv).2) hG1
      have hud := undo_move_eqv hnx
      have hres := make_undo_restore acc.2 mv hGacc h8 hnm
      show Board.eqv ((next ((acc.2.make_move mv).2)).2.undo_move) b
      exact eqv_trans hud (eqv_trans hres hacc)

/-- `minimax` restores (up to `winner`) the board it was handed, at every
fuel level. -/
theorem minimax_snd_eqv (mover : Player) (fuel : Nat) :
    ∀ b : Board, Good b → Board.eqv (minimax mover fuel b).2 b := by
  induction fuel with
  | zero =>
    intro b _
    rw [minimax_zero_snd]
    exact eqv_refl b
  | succ n ih =>
    intro b G
    by_cases h1 : b.status = State.RESULTED
    · rw [minimax_resulted mover (n + 1) b h1]
      exact eqv_refl b
    · by_cases h2 : b.status = State.DRAW
      · rw [minimax_draw mover (n + 1) b h1 h2]
        exact eqv_refl b
      · rw [minimax_succ mover n b h1 h2]
        exact foldl_mm_step_eqv (minimax mover n) (b.turn != mover) b G ih
          (find_available_moves b)
          ((if (b.turn != mover) = true then (-1000 : Int) else 1000), b)
          (fun _ hm => hm) (eqv_refl b)

/-- The `get_best_move` loop likewise leaves the threaded board
`eqv`-equal to the entry board. -/
theorem foldl_best_step_eqv (b : Board) (G : Good b) :
    ∀ (l : List Nat) (acc : Int × Nat × Board),
      (∀ mv ∈ l, mv ∈ find_available_moves b) →
      Board.eqv acc.2.2 b →
      Board.eqv ((l.foldl Board.best_step acc).2.2) b := by
  intro l
  induction l with
  | nil =>
    intro acc _ hacc
    simpa using hacc
  | cons mv l ih =>
    intro acc hl hacc
    rw [List.foldl_cons]
    apply ih
    · intro m hm
      exact hl m (List.mem_cons_of_mem _ hm)
    · obtain ⟨h8, hmm⟩ := available_legal b G mv (hl mv (List.mem_cons_self _ _))
      have hGacc : Good acc.2.2 := good_of_eqv G hacc
      have hnm : mv ∉ acc.2.2.moves := by rw [hacc.2.1]; exact hmm
      have hG1 : Good ((acc.2.2.make_move mv).2) :=
        good_make_move acc.2.2 mv hGacc h8 hnm
      have hnx := minimax_snd_eqv (acc.2.2.candidate_perspective mv) 9
        ((acc.2.2.make_move mv).2) hG1
      have hud := undo_move_eqv hnx
      have hres := make_undo_restore acc.2.2 mv hGacc h8 hnm
      have hend := eqv_trans hud (eqv_trans hres hacc)
      show Board.eqv ((Board.best_step acc mv)).2.2 b
      unfold Board.best_step
      dsimp only
      split
      · exact hend
      · exact hend

theorem get_best_move_snd_eqv (b : Board) (G : Good b) :
    Board.eqv (b.get_best_move).2 b := by
  unfold Board.get_best_move
  exact foldl_best_step_eqv b G (find_available_moves b) (-1000, 0, b)
    (fun _ hm => hm) (eqv_refl b)

end MinimaxMachinery

section C2

/-- A mid-game board (moves `0,3,1,4,6,7`; `X` to move, still
`INPROGRESS`) on which the engine search writes a stale `winner`. -/
def searchBoard : Board :=
  ((((((Board.new Player.X Difficulty.DIFFICULT).make_move 0).2.make_move
    3).2.make_move 1).2.make_move 4).2.make_move 6).2.make_move 7 |>.2

/-- C2, counterexample: on `searchBoard` (non-terminal, with available
moves) the board after `get_best_move` differs from the board before the
call — the search leaves behind a stale `winner` (`O` instead of the
original `EMPTY`). -/
theorem c2_counterexample :
    searchBoard.status = State.INPROGRESS ∧
    find_available_moves searchBoard ≠ [] ∧
    (searchBoard.get_best_move).2 ≠ searchBoard := by
  refine ⟨rfl, by decide, by decide!⟩

/-- C2, amended: on every `Good` board (in particular every board
reachable by valid play), `get_best_move`, `get_medium_move`,
`get_next_move` and `minimax` restore `cells`, `history`, `turn`,
`status` and `difficulty` — every field except `winner`, which the search
may leave holding a stale value. -/
theorem c2_engine_restores_all_but_winner (b : Board) (G : Good b)
    (r mi : Nat) :
    Board.eqv (b.get_best_move).2 b ∧
    Board.eqv (b.get_medium_move r mi).2 b ∧
    Board.eqv (b.get_next_move r mi).2 b ∧
    (∀ (mover : Player) (fuel : Nat), Board.eqv (minimax mover fuel b).2 b) := by
  have hb := get_best_move_snd_eqv b G
  have hmed : Board.eqv (b.get_medium_move r mi).2 b := by
    unfold Board.get_medium_move
    split
    · exact hb
    · exact eqv_refl b
  refine ⟨hb, hmed, ?_, fun mover fuel => minimax_snd_eqv mover fuel b G⟩
  cases hd : b.difficulty
  · simp only [Board.get_next_move, hd]
    exact eqv_refl b
  · simp only [Board.get_next_move, hd]
    exact hmed
  · simp only [Board.get_next_move, hd]
    exact hb

/-- C2, witness for the amended theorem on `searchBoard`. -/
theorem c2_engine_restores_witness :
    Board.eqv (searchBoard.get_best_move).2 searchBoard ∧
    Board.eqv (searchBoard.get_medium_move 0 0).2 searchBoard ∧
    Board.eqv (searchBoard.get_next_move 0 0).2 searchBoard ∧
    (∀ (mover : Player) (fuel : Nat),
      Board.eqv (minimax mover fuel searchBoard).2 searchBoard) :=
  c2_engine_restores_all_but_winner searchBoard
    (good_apply_moves [0, 3, 1, 4, 6, 7] (Board.new Player.X Difficulty.DIFFICULT)
      searchBoard (good_new Player.X Difficulty.DIFFICULT (Or.inl rfl)) rfl) 0 0

end C2

section Bounds

/-- A non-terminal `Good` board has fewer than 9 recorded moves. -/
theorem good_inprogress_len (b : Board) (G : Good b)
    (h1 : b.status ≠ State.RESULTED) (h2 : b.status ≠ State.DRAW) :
    b.moves.length < 9 := by
  have hc := G.consistent
  unfold statusOf at hc
  by_cases hl : b.moves.length = 0
  · omega
  · rw [if_neg hl] at hc
    split_ifs at hc with hw h9
    · exact absurd hc h1
    · exact absurd hc h2
    · omega

/-- Pigeonhole: fewer than 9 recorded moves leave an empty cell. -/
theorem available_nonempty (b : Board) (G : Good b)
    (hlen : b.moves.length < 9) : find_available_moves b ≠ [] := by
  intro hemp
  have hsub : List.range 9 ⊆ b.moves := by
    intro i hi
    have hi9 : i < 9 := List.mem_range.mp hi
    by_contra hmem
    have hD := G.empty_of_not_mem i hmem
    have hin : i ∈ find_available_moves b :=
      (mem_find_available b i).mpr ⟨by rw [G.mlen]; omega, hD⟩
    rw [hemp] at hin
    exact absurd hin (List.not_mem_nil i)
  have hle := (List.subperm_of_subset (List.nodup_range 9) hsub).length_le
  rw [List.length_range] at hle
  omega

/-- The `minimax` move loop keeps the running best inside `[-1, 1]` as
soon as one candidate has been folded in, provided every recursive score
is inside `[-1, 1]`. -/
theorem foldl_mm_step_bounds (next : Board → Int × Board) (is_max : Bool)
    (b : Board) (G : Good b)
    (hnext : ∀ c : Board, Good c → Board.eqv (next c).2 c)
    (hbnd : ∀ c : Board, Good c → c.moves.length = b.moves.length + 1 →
      -1 ≤ (next c).1 ∧ (next c).1 ≤ 1) :
    ∀ (l : List Nat) (acc : Int × Board),
      (∀ mv ∈ l, mv ∈ find_available_moves b) →
      Board.eqv acc.2 b →
      ((-1 ≤ acc.1 ∧ acc.1 ≤ 1) ∨
        (l ≠ [] ∧ acc.1 = if is_max = true then -1000 else 1000)) →
      -1 ≤ ((l.foldl (mm_step next is_max) acc)).1 ∧
        ((l.foldl (mm_step next is_max) acc)).1 ≤ 1 := by
  intro l
  induction l with
  | nil =>
    intro acc _ _ hin
    rcases hin with hin | ⟨hcon, _⟩
    · simpa using hin
    · exact absurd rfl hcon
  | cons mv l ih =>
    intro acc hl hacc hin
    rw [List.foldl_cons]
    obtain ⟨h8, hmm⟩ := available_legal b G mv (hl mv (List.mem_cons_self _ _))
    have hGacc := good_of_eqv G hacc
    have hnm : mv ∉ acc.2.moves := by rw [hacc.2.1]; exact hmm
    have hG1 := good_make_move acc.2 mv hGacc h8 hnm
    have hlen1 : ((acc.2.make_move mv).2).moves.length = b.moves.length + 1 := by
      rw [make_move_ok_moves acc.2 mv h8 hnm]
      simp [hacc.2.1]
    have hsb := hbnd _ hG1 hlen1
    have hstep2 : Board.eqv ((mm_step next is_max acc mv)).2 b := by
      have hud := undo_move_eqv (hnext _ hG1)
      have hres := make_undo_restore acc.2 mv hGacc h8 hnm
      show Board.eqv ((next ((acc.2.make_move mv).2)).2.undo_move) b
      exact eqv_trans hud (eqv_trans hres hacc)
    apply ih _ (fun m hm => hl m (List.mem_cons_of_mem _ hm)) hstep2
    left
    show -1 ≤ (mm_step next is_max acc mv).1 ∧ (mm_step next is_max acc mv).1 ≤ 1
    unfold mm_step
    dsimp only
    rcases hin with hin | ⟨_, hinit⟩
    · split_ifs with hc1 hc2
      · exact hsb
      · exact hsb
      · exact hin
    · by_cases hmx : is_max = true
      · rw [if_pos hmx] at hinit
        split_ifs with hc1 hc2
        · exact hsb
        · exact hsb
        · exfalso
          apply hc1
          refine ⟨hmx, ?_⟩
          have hb1 := hsb.1
          rw [hinit]
          omega
      · rw [if_neg hmx] at hinit
        split_ifs with hc1 hc2
        · exact hsb
        · exact hsb
        · exfalso
          apply hc2
          refine ⟨hmx, ?_⟩
          have hb2 := hsb.2
          rw [hinit]
          omega

/-- `minimax` scores stay in `[-1, 1]` whenever the fuel covers the
remaining depth (which `fuel = 9` always does on `Good` boards). -/
theorem minimax_bounds (mover : Player) :
    ∀ (fuel : Nat) (b : Board), Good b → 9 ≤ fuel + b.moves.length →
      -1 ≤ (minimax mover fuel b).1 ∧ (minimax mover fuel b).1 ≤ 1 := by
  intro fuel
  induction fuel with
  | zero =>
    intro b G hf
    by_cases h1 : b.status = State.RESULTED
    · rw [minimax_resulted mover 0 b h1]
      dsimp only
      split_ifs <;> omega
    · by_cases h2 : b.status = State.DRAW
      · rw [minimax_draw mover 0 b h1 h2]
        exact ⟨by omega, by omega⟩
      · have := good_inprogress_len b G h1 h2
        omega
  | succ n ih =>
    intro b G hf
    by_cases h1 : b.status = State.RESULTED
    · rw [minimax_resulted mover (n + 1) b h1]
      dsimp only
      split_ifs <;> omega
    · by_cases h2 : b.status = State.DRAW
      · rw [minimax_draw mover (n + 1) b h1 h2]
        exact ⟨by omega, by omega⟩
      · have hlt := good_inprogress_len b G h1 h2
        have hne := available_nonempty b G hlt
        rw [minimax_succ mover n b h1 h2]
        apply foldl_mm_step_bounds (minimax mover n) (b.turn != mover) b G
          (minimax_snd_eqv mover n)
          (fun c Gc hc => ih c Gc (by omega))
          (find_available_moves b) _ (fun _ hm => hm) (eqv_refl b)
        right
        exact ⟨hne, rfl⟩

end Bounds

section C8

/-- The `get_best_move` loop: once one candidate has been folded in, the
running best move is one of the available moves and the running best
score is a real game score in `[-1, 1]`. -/
theorem foldl_best_step_sel (b : Board) (G : Good b) :
    ∀ (l : List Nat) (acc : Int × Nat × Board),
      (∀ mv ∈ l, mv ∈ find_available_moves b) →
      Board.eqv acc.2.2 b →
      ((-1 ≤ acc.1 ∧ acc.1 ≤ 1 ∧ acc.2.1 ∈ find_available_moves b) ∨
        (l ≠ [] ∧ acc.1 = -1000)) →
      ((l.foldl Board.best_step acc)).2.1 ∈ find_available_moves b := by
  intro l
  induction l with
  | nil =>
    intro acc _ _ hin
    rcases hin with hin | ⟨hcon, _⟩
    · simpa using hin.2.2
    · exact absurd rfl hcon
  | cons mv l ih =>
    intro acc hl hacc hin
    rw [List.foldl_cons]
    obtain ⟨h8, hmm⟩ := available_legal b G mv (hl mv (List.mem_cons_self _ _))
    have hGacc := good_of_eqv G hacc
    have hnm : mv ∉ acc.2.2.moves := by rw [hacc.2.1]; exact hmm
    have hG1 := good_make_move acc.2.2 mv hGacc h8 hnm
    have hsb := minimax_bounds (acc.2.2.candidate_perspective mv) 9
      ((acc.2.2.make_move mv).2) hG1 (by omega)
    have hstep2 : Board.eqv ((Board.best_step acc mv)).2.2 b := by
      have hud := undo_move_eqv
        (minimax_snd_eqv (acc.2.2.candidate_perspective mv) 9
          ((acc.2.2.make_move mv).2) hG1)
      have hres := make_undo_restore acc.2.2 mv hGacc h8 hnm
      have hend := eqv_trans hud (eqv_trans hres hacc)
      show Board.eqv ((Board.best_step acc mv)).2.2 b
      unfold Board.best_step
      dsimp only
      split
      · exact hend
      · exact hend
    apply ih _ (fun m hm => hl m (List.mem_cons_of_mem _ hm)) hstep2
    left
    have hmem : mv ∈ find_available_moves b := hl mv (List.mem_cons_self _ _)
    show -1 ≤ (Board.best_step acc mv).1 ∧ (Board.best_step acc mv).1 ≤ 1 ∧
      (Board.best_step acc mv).2.1 ∈ find_available_moves b
    unfold Board.best_step
    dsimp only
    rcases hin with hin | ⟨_, hinit⟩
    · split_ifs with hc1
      · exact ⟨hsb.1, hsb.2, hmem⟩
      · exact ⟨hin.1, hin.2.1, hin.2.2⟩
    · split_ifs with hc1
      · exact ⟨hsb.1, hsb.2, hmem⟩
      · exfalso
        apply hc1
        have hb1 := hsb.1
        rw [hinit]
        omega

/-- The move `get_best_move` returns is one of the available moves. -/
theorem get_best_move_mem (b : Board) (G : Good b)
    (hne : find_available_moves b ≠ []) :
    (b.get_best_move).1 ∈ find_available_moves b := by
  unfold Board.get_best_move
  exact foldl_best_step_sel b G (find_available_moves b) (-1000, 0, b)
    (fun _ hm => hm) (eqv_refl b) (Or.inr ⟨hne, rfl⟩)

/-- C8: for every `Good` board and every outcome of the random source
(`mi` below the number of available moves, as `gen_range` guarantees, and
an arbitrary percentage roll `r`), both `get_random_move` and
`get_medium_move` return an index that is in `available_moves` at call
time. -/
theorem c8_selectors_return_available (b : Board) (G : Good b) (r mi : Nat)
    (hmi : mi < (find_available_moves b).length) :
    b.get_random_move mi ∈ find_available_moves b ∧
    (b.get_medium_move r mi).1 ∈ find_available_moves b := by
  have hne : find_available_moves b ≠ [] := by
    intro h
    rw [h] at hmi
    simp at hmi
  have hrand : b.get_random_move mi ∈ find_available_moves b := by
    unfold Board.get_random_move
    rw [List.getD_eq_getElem?_getD, List.getElem?_eq_getElem hmi]
    simp only [Option.getD_some]
    exact List.getElem_mem hmi
  refine ⟨hrand, ?_⟩
  unfold Board.get_medium_move
  split
  · exact get_best_move_mem b G hne
  · exact hrand

/-- C8, witness on the fresh board (9 available moves). -/
theorem c8_selectors_return_available_witness :
    (Board.new Player.X Difficulty.EASY).get_random_move 4 ∈
      find_available_moves (Board.new Player.X Difficulty.EASY) ∧
    ((Board.new Player.X Difficulty.EASY).get_medium_move 80 4).1 ∈
      find_available_moves (Board.new Player.X Difficulty.EASY) :=
  c8_selectors_return_available (Board.new Player.X Difficulty.EASY)
    (good_new Player.X Difficulty.EASY (Or.inl rfl)) 80 4 (by decide)

end C8

section C5

/-- A cell read, as used throughout the win test. -/
def cell (mtx : List Player) (i : Nat) : Player := mtx.getD i Player.EMPTY

/-- `win_at` as a proposition: the source's four completion flags. -/
theorem win_at_iff (mtx : List Player) (p : Nat) :
    win_at mtx p = true ↔
      (cell mtx p = cell mtx (p / 3 * 3) ∧
        cell mtx (p / 3 * 3) = cell mtx (p / 3 * 3 + 1) ∧
        cell mtx (p / 3 * 3 + 1) = cell mtx (p / 3 * 3 + 2)) ∨
      (cell mtx p = cell mtx (p % 3) ∧
        cell mtx (p % 3) = cell mtx (p % 3 + 3) ∧
        cell mtx (p % 3 + 3) = cell mtx (p % 3 + 6)) ∨
      (cell mtx p = cell mtx 0 ∧ cell mtx 0 = cell mtx 4 ∧
        cell mtx 4 = cell mtx 8) ∨
      (cell mtx p = cell mtx 2 ∧ cell mtx 2 = cell mtx 4 ∧
        cell mtx 4 = cell mtx 6) := by
  unfold win_at cell
  simp only [Bool.or_eq_true, Bool.and_eq_true, beq_iff_eq, and_assoc, or_assoc]

/-- The completion rule exactly as the specification words it: row, or
column, or main diagonal but only for an index on it, or anti-diagonal
but only for an index on it, each uniformly one non-`EMPTY` value. -/
def spec_complete_at (mtx : List Player) (p : Nat) : Prop :=
  (cell mtx (p / 3 * 3) ≠ Player.EMPTY ∧
    cell mtx (p / 3 * 3) = cell mtx (p / 3 * 3 + 1) ∧
    cell mtx (p / 3 * 3 + 1) = cell mtx (p / 3 * 3 + 2)) ∨
  (cell mtx (p % 3) ≠ Player.EMPTY ∧
    cell mtx (p % 3) = cell mtx (p % 3 + 3) ∧
    cell mtx (p % 3 + 3) = cell mtx (p % 3 + 6)) ∨
  ((p = 0 ∨ p = 4 ∨ p = 8) ∧ cell mtx 0 ≠ Player.EMPTY ∧
    cell mtx 0 = cell mtx 4 ∧ cell mtx 4 = cell mtx 8) ∨
  ((p = 2 ∨ p = 4 ∨ p = 6) ∧ cell mtx 2 ≠ Player.EMPTY ∧
    cell mtx 2 = cell mtx 4 ∧ cell mtx 4 = cell mtx 6)

/-- What the code actually checks, as a proposition: row, column, and
*both* diagonals, the diagonals gated only by the last-touched cell's
value matching them, not by the index lying on them. -/
def code_complete_at (mtx : List Player) (p : Nat) : Prop :=
  (cell mtx (p / 3 * 3) ≠ Player.EMPTY ∧
    cell mtx (p / 3 * 3) = cell mtx (p / 3 * 3 + 1) ∧
    cell mtx (p / 3 * 3 + 1) = cell mtx (p / 3 * 3 + 2)) ∨
  (cell mtx (p % 3) ≠ Player.EMPTY ∧
    cell mtx (p % 3) = cell mtx (p % 3 + 3) ∧
    cell mtx (p % 3 + 3) = cell mtx (p % 3 + 6)) ∨
  (cell mtx 0 ≠ Player.EMPTY ∧ cell mtx 0 = cell mtx 4 ∧
    cell mtx 4 = cell mtx 8 ∧ cell mtx p = cell mtx 0) ∨
  (cell mtx 2 ≠ Player.EMPTY ∧ cell mtx 2 = cell mtx 4 ∧
    cell mtx 4 = cell mtx 6 ∧ cell mtx p = cell mtx 2)

instance : DecidableEq (Except MoveError Unit) := fun a b =>
  match a, b with
  | Except.ok (), Except.ok () => isTrue rfl
  | Except.error e, Except.error f =>
    match decEq e f with
    | isTrue h => isTrue (by rw [h])
    | isFalse h => isFalse (by intro hh; cases hh; exact h rfl)
  | Except.ok _, Except.error _ => isFalse (by intro h; cases h)
  | Except.error _, Except.ok _ => isFalse (by intro h; cases h)

instance spec_complete_at.dec (mtx : List Player) (p : Nat) :
    Decidable (spec_complete_at mtx p) := by
  unfold spec_complete_at
  infer_instance

instance code_complete_at.dec (mtx : List Player) (p : Nat) :
    Decidable (code_complete_at mtx p) := by
  unfold code_complete_at
  infer_instance

/-- The board reached by `0,5,4,6,8,2`: `X` completed the main diagonal
at the fifth move, after which `O`'s reply at `2` reset the status to
`INPROGRESS` even though the diagonal is still complete. -/
def diagBoard : Board :=
  (((((Board.new Player.X Difficulty.DIFFICULT).make_move 0).2.make_move
    5).2.make_move 4).2.make_move 6).2.make_move 8 |>.2.make_move 2 |>.2

/-- C5, counterexample: playing `1` on `diagBoard` runs the status
recomputation with last-touched index `1`, which lies on no diagonal and
whose row and column are not uniform; the specification's rule declares
no line complete, but the code declares `RESULTED` because the cell's
value (`X`) matches the complete main diagonal. -/
theorem c5_counterexample :
    diagBoard.status = State.INPROGRESS ∧
    (diagBoard.make_move 1).1 = Except.ok () ∧
    win_at ((diagBoard.make_move 1).2).matrix 1 = true ∧
    ((diagBoard.make_move 1).2).status = State.RESULTED ∧
    ¬ spec_complete_at ((diagBoard.make_move 1).2).matrix 1 := by
  decide!

/-- C5, amended: on a cell whose value is non-`EMPTY` (as always holds
for the last-touched cell during valid play), the recomputation declares
a line complete exactly when the cell's row is uniform, or its column
is, or the main diagonal is uniform *and matches the cell's value*, or
the anti-diagonal is uniform *and matches the cell's value* — membership
of the index in a diagonal is never consulted. -/
theorem c5_win_at_characterization (mtx : List Player) (p : Nat)
    (hp8 : p ≤ 8) (hp : cell mtx p ≠ Player.EMPTY) :
    win_at mtx p = true ↔ code_complete_at mtx p := by
  rw [win_at_iff]
  unfold code_complete_at
  have hmem_row : p = p / 3 * 3 ∨ p = p / 3 * 3 + 1 ∨ p = p / 3 * 3 + 2 := by omega
  have hmem_col : p = p % 3 ∨ p = p % 3 + 3 ∨ p = p % 3 + 6 := by omega
  constructor
  · rintro (h | h | h | h)
    · exact Or.inl ⟨by rw [← h.1]; exact hp, h.2.1, h.2.2⟩
    · exact Or.inr (Or.inl ⟨by rw [← h.1]; exact hp, h.2.1, h.2.2⟩)
    · exact Or.inr (Or.inr (Or.inl ⟨by rw [← h.1]; exact hp, h.2.1, h.2.2, h.1⟩))
    · exact Or.inr (Or.inr (Or.inr ⟨by rw [← h.1]; exact hp, h.2.1, h.2.2, h.1⟩))
  · rintro (h | h | h | h)
    · refine Or.inl ⟨?_, h.2.1, h.2.2⟩
      rcases hmem_row with he | he | he
      · exact congrArg (cell mtx) he
      · rw [congrArg (cell mtx) he, ← h.2.1]
      · rw [congrArg (cell mtx) he, ← h.2.2, ← h.2.1]
    · refine Or.inr (Or.inl ⟨?_, h.2.1, h.2.2⟩)
      rcases hmem_col with he | he | he
      · exact congrArg (cell mtx) he
      · rw [congrArg (cell mtx) he, ← h.2.1]
      · rw [congrArg (cell mtx) he, ← h.2.2, ← h.2.1]
    · exact Or.inr (Or.inr (Or.inl ⟨h.2.2.2, h.2.1, h.2.2.1⟩))
    · exact Or.inr (Or.inr (Or.inr ⟨h.2.2.2, h.2.1, h.2.2.1⟩))

/-- C5, witness: the amended characterization evaluated on the board
after `diagBoard.make_move 1`, at the last-touched index `1`. -/
theorem c5_win_at_characterization_witness :
    win_at ((diagBoard.make_move 1).2).matrix 1 = true ↔
      code_complete_at ((diagBoard.make_move 1).2).matrix 1 :=
  c5_win_at_characterization ((diagBoard.make_move 1).2).matrix 1
    (by omega) (by decide!)

end C5

section C3

/-- The eight lines of the grid: three rows, three columns, the main
diagonal, the anti-diagonal. -/
def lines : List (Nat × Nat × Nat) :=
  [(0, 1, 2), (3, 4, 5), (6, 7, 8), (0, 3, 6), (1, 4, 7), (2, 5, 8),
   (0, 4, 8), (2, 4, 6)]

/-- A line fully occupied by one non-`EMPTY` value. -/
def line_won (mtx : List Player) (L : Nat × Nat × Nat) : Prop :=
  cell mtx L.1 ≠ Player.EMPTY ∧ cell mtx L.1 = cell mtx L.2.1 ∧
  cell mtx L.2.1 = cell mtx L.2.2

/-- Some line (row, column, or either diagonal) is fully occupied by one
non-`EMPTY` value. -/
def some_line_complete (mtx : List Player) : Prop :=
  ∃ L ∈ lines, line_won mtx L

instance line_won.dec (mtx : List Player) (L : Nat × Nat × Nat) :
    Decidable (line_won mtx L) := by
  unfold line_won
  infer_instance

instance some_line_complete.dec (mtx : List Player) :
    Decidable (some_line_complete mtx) := by
  unfold some_line_complete
  infer_instance

/-- Writing a cell off a line does not change whether the line is won. -/
theorem line_won_set_ne (mtx : List Player) (p : Nat) (t : Player)
    (L : Nat × Nat × Nat) (h1 : p ≠ L.1) (h2 : p ≠ L.2.1) (h3 : p ≠ L.2.2) :
    line_won (mtx.set p t) L ↔ line_won mtx L := by
  unfold line_won cell
  rw [getD_set_ne mtx p L.1 t h1, getD_set_ne mtx p L.2.1 t h2,
    getD_set_ne mtx p L.2.2 t h3]

/-- All three cells of a won line hold the same value. -/
theorem line_won_val (mtx : List Player) (L : Nat × Nat × Nat) (p : Nat)
    (h : line_won mtx L) (hp : p = L.1 ∨ p = L.2.1 ∨ p = L.2.2) :
    cell mtx L.1 = cell mtx p := by
  rcases hp with he | he | he
  · rw [congrArg (cell mtx) he]
  · rw [congrArg (cell mtx) he]
    exact h.2.1
  · rw [congrArg (cell mtx) he]
    exact h.2.1.trans h.2.2

theorem statusOf_resulted_iff (m : List Player) (ms : List Nat) (hne : ms ≠ []) :
    statusOf m ms = State.RESULTED ↔
      win_at m (ms.getD (ms.length - 1) 0) = true := by
  unfold statusOf
  have hl : ¬ ms.length = 0 := by simpa using hne
  rw [if_neg hl]
  split_ifs with hw h9
  · exact iff_of_true rfl hw
  · exact iff_of_false (by simp) hw
  · exact iff_of_false (by simp) hw

theorem getD_last_concat (ms : List Nat) (p : Nat) :
    (ms ++ [p]).getD ((ms ++ [p]).length - 1) 0 = p := by
  rw [List.getD_eq_getElem?_getD, List.length_append]
  simp only [List.length_singleton, Nat.add_sub_cancel]
  rw [List.getElem?_append_right (Nat.le_refl ms.length)]
  simp

/-- After placing a non-`EMPTY` stone on a board with no complete line,
some line is complete exactly when the code's localized win test at the
placed cell fires. -/
theorem complete_iff_win_at (mtx : List Player) (p : Nat) (t : Player)
    (hlen : mtx.length = 9) (h8 : p ≤ 8)
    (hnc : ¬ some_line_complete mtx)
    (hE : cell mtx p = Player.EMPTY) (ht : t ≠ Player.EMPTY) :
    some_line_complete (mtx.set p t) ↔ win_at (mtx.set p t) p = true := by
  have hp1 : cell (mtx.set p t) p = t := by
    unfold cell
    exact getD_set_self mtx p t (by omega)
  have hp1E : cell (mtx.set p t) p ≠ Player.EMPTY := by rw [hp1]; exact ht
  constructor
  · rintro ⟨L, hL, hw⟩
    by_cases hpL : p = L.1 ∨ p = L.2.1 ∨ p = L.2.2
    · rw [c5_win_at_characterization (mtx.set p t) p h8 hp1E]
      fin_cases hL
      · rcases hpL with rfl | rfl | rfl <;>
          exact Or.inl ⟨hw.1, hw.2.1, hw.2.2⟩
      · rcases hpL with rfl | rfl | rfl <;>
          exact Or.inl ⟨hw.1, hw.2.1, hw.2.2⟩
      · rcases hpL with rfl | rfl | rfl <;>
          exact Or.inl ⟨hw.1, hw.2.1, hw.2.2⟩
      · rcases hpL with rfl | rfl | rfl <;>
          exact Or.inr (Or.inl ⟨hw.1, hw.2.1, hw.2.2⟩)
      · rcases hpL with rfl | rfl | rfl <;>
          exact Or.inr (Or.inl ⟨hw.1, hw.2.1, hw.2.2⟩)
      · rcases hpL with rfl | rfl | rfl <;>
          exact Or.inr (Or.inl ⟨hw.1, hw.2.1, hw.2.2⟩)
      · rcases hpL with rfl | rfl | rfl
        · exact Or.inr (Or.inr (Or.inl ⟨hw.1, hw.2.1, hw.2.2, rfl⟩))
        · exact Or.inr (Or.inr (Or.inl ⟨hw.1, hw.2.1, hw.2.2, hw.2.1.symm⟩))
        · exact Or.inr (Or.inr (Or.inl
            ⟨hw.1, hw.2.1, hw.2.2, (hw.2.1.trans hw.2.2).symm⟩))
      · rcases hpL with rfl | rfl | rfl
        · exact Or.inr (Or.inr (Or.inr ⟨hw.1, hw.2.1, hw.2.2, rfl⟩))
        · exact Or.inr (Or.inr (Or.inr ⟨hw.1, hw.2.1, hw.2.2, hw.2.1.symm⟩))
        · exact Or.inr (Or.inr (Or.inr
            ⟨hw.1, hw.2.1, hw.2.2, (hw.2.1.trans hw.2.2).symm⟩))
    · push_neg at hpL
      exact absurd ⟨L, hL,
        (line_won_set_ne mtx p t L hpL.1 hpL.2.1 hpL.2.2).mp hw⟩ hnc
  · intro hwin
    rw [win_at_iff] at hwin
    rcases hwin with h | h | h | h
    · have hr : p / 3 = 0 ∨ p / 3 = 1 ∨ p / 3 = 2 := by omega
      rcases hr with hr | hr | hr <;> rw [hr] at h <;> norm_num at h
      · exact ⟨(0, 1, 2), by decide, ⟨by rw [← h.1]; exact hp1E, h.2.1, h.2.2⟩⟩
      · exact ⟨(3, 4, 5), by decide, ⟨by rw [← h.1]; exact hp1E, h.2.1, h.2.2⟩⟩
      · exact ⟨(6, 7, 8), by decide, ⟨by rw [← h.1]; exact hp1E, h.2.1, h.2.2⟩⟩
    · have hc : p % 3 = 0 ∨ p % 3 = 1 ∨ p % 3 = 2 := by omega
      rcases hc with hc | hc | hc <;> rw [hc] at h <;> norm_num at h
      · exact ⟨(0, 3, 6), by decide, ⟨by rw [← h.1]; exact hp1E, h.2.1, h.2.2⟩⟩
      · exact ⟨(1, 4, 7), by decide, ⟨by rw [← h.1]; exact hp1E, h.2.1, h.2.2⟩⟩
      · exact ⟨(2, 5, 8), by decide, ⟨by rw [← h.1]; exact hp1E, h.2.1, h.2.2⟩⟩
    · exact ⟨(0, 4, 8), by decide, ⟨by rw [← h.1]; exact hp1E, h.2.1, h.2.2⟩⟩
    · exact ⟨(2, 4, 6), by decide, ⟨by rw [← h.1]; exact hp1E, h.2.1, h.2.2⟩⟩

/-- The C3 invariant: `RESULTED` exactly when a line is complete, and
`winner` holds the value of every complete line. -/
def WinInv (b : Board) : Prop :=
  (b.status = State.RESULTED ↔ some_line_complete b.matrix) ∧
  (∀ L ∈ lines, line_won b.matrix L → b.winner = cell b.matrix L.1)

theorem wininv_new (s : Player) (d : Difficulty) : WinInv (Board.new s d) := by
  have hmx : (Board.new s d).matrix = List.replicate 9 Player.EMPTY := rfl
  constructor
  · refine ⟨fun h => absurd h (by simp [Board.new]), fun h => absurd h ?_⟩
    rw [hmx]
    decide
  · intro L hL hw
    rw [hmx] at hw
    exfalso
    revert hw
    fin_cases hL <;> decide

/-- The winner written by `change_turn` followed by `change_board_state`
when the win test fires at the last recorded move. -/
theorem ct_cbs_winner (z : Board) (hne : z.moves ≠ [])
    (hw : win_at z.matrix (z.moves.getD (z.moves.length - 1) 0) = true) :
    z.change_turn.change_board_state.winner =
      cell z.matrix (z.moves.getD (z.moves.length - 1) 0) := by
  have hne2 : z.change_turn.moves ≠ [] := by rw [change_turn_moves]; exact hne
  have hw2 : win_at z.change_turn.matrix
      (z.change_turn.moves.getD (z.change_turn.moves.length - 1) 0) = true := by
    rw [change_turn_matrix, change_turn_moves]
    exact hw
  rw [change_board_state_winner_of_win _ hne2 hw2]
  rw [change_turn_matrix, change_turn_moves]
  rfl

/-- On a winning move, `make_move` records the placed value as winner. -/
theorem make_move_winner_of_win (b : Board) (p : Nat)
    (h8 : p ≤ 8) (hm : p ∉ b.moves)
    (hwin : win_at (b.matrix.set p b.turn) p = true) :
    ((b.make_move p).2).winner = cell (b.matrix.set p b.turn) p := by
  have hlast := getD_last_concat b.moves p
  have hz := ct_cbs_winner
    ({ b with
        matrix := b.matrix.set p b.turn
        moves := b.moves ++ [p] } : Board)
    (by simp)
    (by dsimp only; rw [hlast]; exact hwin)
  rw [make_move_ok_eq b p h8 hm]
  dsimp only
  rw [hz]
  dsimp only
  rw [hlast]

/-- One valid-play step (from a non-`RESULTED` board) preserves the C3
invariant. -/
theorem wininv_step (b : Board) (p : Nat) (G : Good b)
    (hnr : b.status ≠ State.RESULTED)
    (h8 : p ≤ 8) (hm : p ∉ b.moves) (W : WinInv b) :
    WinInv ((b.make_move p).2) := by
  have hmat := make_move_ok_matrix b p h8 hm
  have hmov := make_move_ok_moves b p h8 hm
  have htE : b.turn ≠ Player.EMPTY := by
    rcases G.turnXO with h | h <;> simp [h]
  have hnc : ¬ some_line_complete b.matrix := fun hc => hnr (W.1.mpr hc)
  have hpE : cell b.matrix p = Player.EMPTY := G.empty_of_not_mem p hm
  have hkey := complete_iff_win_at b.matrix p b.turn G.mlen h8 hnc hpE htE
  have hstat : ((b.make_move p).2).status =
      statusOf (b.matrix.set p b.turn) (b.moves ++ [p]) := by
    have G1 := good_make_move b p G h8 hm
    rw [G1.consistent, hmat, hmov]
  have hlast := getD_last_concat b.moves p
  have hres_iff : ((b.make_move p).2).status = State.RESULTED ↔
      win_at (b.matrix.set p b.turn) p = true := by
    rw [hstat, statusOf_resulted_iff _ _ (by simp), hlast]
  constructor
  · rw [hres_iff, hmat]
    exact hkey.symm
  · intro L hL hw
    rw [hmat] at hw
    by_cases hwin : win_at (b.matrix.set p b.turn) p = true
    · have hpL : p = L.1 ∨ p = L.2.1 ∨ p = L.2.2 := by
        by_contra hpL
        push_neg at hpL
        exact hnc ⟨L, hL,
          (line_won_set_ne b.matrix p b.turn L hpL.1 hpL.2.1 hpL.2.2).mp hw⟩
      have hwinner := make_move_winner_of_win b p h8 hm hwin
      rw [hmat, hwinner]
      exact (line_won_val (b.matrix.set p b.turn) L p hw hpL).symm
    · exact absurd (hkey.mp ⟨L, hL, hw⟩) hwin

/-- Valid play: apply moves, refusing to continue once the game is
`RESULTED` (every move is made strictly before the game is decided). -/
def apply_moves_pre (b : Board) : List Nat → Option Board
  | [] => some b
  | p :: ps =>
    if b.status = State.RESULTED then none
    else
      match b.make_move p with
      | (Except.ok _, b') => apply_moves_pre b' ps
      | (Except.error _, _) => none

theorem wininv_apply_pre (ps : List Nat) :
    ∀ b b' : Board, Good b → WinInv b → apply_moves_pre b ps = some b' →
      Good b' ∧ WinInv b' := by
  induction ps with
  | nil =>
    intro b b' G W h
    unfold apply_moves_pre at h
    cases h
    exact ⟨G, W⟩
  | cons p ps ih =>
    intro b b' G W h
    unfold apply_moves_pre at h
    by_cases hnr : b.status = State.RESULTED
    · rw [if_pos hnr] at h
      exact absurd h (by simp)
    · rw [if_neg hnr] at h
      rcases hmk : b.make_move p with ⟨r, b1⟩
      rw [hmk] at h
      cases r with
      | error e => exact absurd h (by simp)
      | ok u =>
        cases u
        have hok : (b.make_move p).1 = Except.ok () := by rw [hmk]
        obtain ⟨h8, hm⟩ := (make_move_fst_ok_iff b p).mp hok
        have G1 : Good b1 := by
          have := good_make_move b p G h8 hm
          rwa [hmk] at this
        have W1 : WinInv b1 := by
          have := wininv_step b p G hnr h8 hm W
          rwa [hmk] at this
        exact ih b1 b' G1 W1 h

/-- C3, counterexample: `diagBoard` is reachable from a fresh board by
six successful `make_move` calls, the main diagonal is fully occupied by
`X`, yet its status is `INPROGRESS` — the sixth move (played after the
game was already decided) reset the status. -/
theorem c3_counterexample :
    apply_moves (Board.new Player.X Difficulty.DIFFICULT) [0, 5, 4, 6, 8, 2] =
      some diagBoard ∧
    some_line_complete diagBoard.matrix ∧
    diagBoard.status = State.INPROGRESS := by
  decide!

/-- C3, amended: for every board reachable from a fresh board by
successful `apply_move` calls *each made while the game was not yet
decided*, `status = RESULTED` holds iff some line is fully occupied by
one non-`EMPTY` value, and `winner` then equals the value of every such
line.  (Without the valid-play restriction the invariant fails, because
`make_move` accepts moves on decided boards and the localized status
recomputation then loses the win.) -/
theorem c3_status_iff_line (start : Player) (d : Difficulty) (ps : List Nat)
    (b : Board) (hs : start = Player.X ∨ start = Player.O)
    (h : apply_moves_pre (Board.new start d) ps = some b) :
    (b.status = State.RESULTED ↔ some_line_complete b.matrix) ∧
    (∀ L ∈ lines, line_won b.matrix L → b.winner = cell b.matrix L.1) :=
  (wininv_apply_pre ps (Board.new start d) b (good_new start d hs)
    (wininv_new start d) h).2

/-- C3, witness: the winning sequence `0,3,1,4,2` is valid play; the
resulting board is `RESULTED`, the top row is complete, and the winner
is its value `X`. -/
theorem c3_status_iff_line_witness :
    ((wonBoard.status = State.RESULTED ↔ some_line_complete wonBoard.matrix) ∧
      wonBoard.winner = cell wonBoard.matrix 0) :=
  ⟨(c3_status_iff_line Player.X Difficulty.EASY [0, 3, 1, 4, 2] wonBoard
      (Or.inl rfl) (by decide!)).1,
   (c3_status_iff_line Player.X Difficulty.EASY [0, 3, 1, 4, 2] wonBoard
      (Or.inl rfl) (by decide!)).2 (0, 1, 2) (by decide) (by decide!)⟩

end C3

section C4

/-- After a successful move, the status is `RESULTED` exactly when the
localized win test fires at the placed cell. -/
theorem make_move_resulted_iff (b : Board) (p : Nat) (G : Good b)
    (h8 : p ≤ 8) (hm : p ∉ b.moves) :
    ((b.make_move p).2).status = State.RESULTED ↔
      win_at (b.matrix.set p b.turn) p = true := by
  have hstat : ((b.make_move p).2).status =
      statusOf (b.matrix.set p b.turn) (b.moves ++ [p]) := by
    have G1 := good_make_move b p G h8 hm
    rw [G1.consistent, make_move_ok_matrix b p h8 hm, make_move_ok_moves b p h8 hm]
  rw [hstat, statusOf_resulted_iff _ _ (by simp), getD_last_concat]

/-- Two `minimax`-loop folds, one on each side of an `eqv` pair of
boards, with recursive evaluators that agree on scores, produce equal
running bests. -/
theorem foldl_mm_step_congr2 (next1 next2 : Board → Int × Board)
    (is_max : Bool) (x y : Board) (Gx : Good x) (hxy : Board.eqv x y)
    (hres1 : ∀ c : Board, Good c → Board.eqv (next1 c).2 c)
    (hres2 : ∀ c : Board, Good c → Board.eqv (next2 c).2 c)
    (hnext : ∀ c d : Board, Good c → c.moves.length = x.moves.length + 1 →
      Board.eqv c d → (c.status = State.RESULTED → c.winner = d.winner) →
      (next1 c).1 = (next2 d).1) :
    ∀ l : List Nat, (∀ mv ∈ l, mv ∈ find_available_moves x) →
      ∀ a1 a2 : Int × Board, a1.1 = a2.1 →
        Board.eqv a1.2 x → Board.eqv a2.2 y →
        (l.foldl (mm_step next1 is_max) a1).1 =
          (l.foldl (mm_step next2 is_max) a2).1 := by
  intro l
  induction l with
  | nil =>
    intro _ a1 a2 h11 _ _
    simpa using h11
  | cons mv l ih =>
    intro hl a1 a2 h11 ha1 ha2
    rw [List.foldl_cons, List.foldl_cons]
    obtain ⟨h8, hmm⟩ := available_legal x Gx mv (hl mv (List.mem_cons_self _ _))
    have ha12 : Board.eqv a1.2 a2.2 :=
      eqv_trans ha1 (eqv_trans hxy (eqv_symm ha2))
    have G1 : Good a1.2 := good_of_eqv Gx ha1
    have G2 : Good a2.2 := good_of_eqv Gx (eqv_trans ha2 (eqv_symm hxy))
    have hnm1 : mv ∉ a1.2.moves := by rw [ha1.2.1]; exact hmm
    have hnm2 : mv ∉ a2.2.moves := by
      rw [ha2.2.1, ← hxy.2.1]; exact hmm
    have Gc1 : Good ((a1.2.make_move mv).2) := good_make_move a1.2 mv G1 h8 hnm1
    have hclen : ((a1.2.make_move mv).2).moves.length = x.moves.length + 1 := by
      rw [make_move_ok_moves a1.2 mv h8 hnm1]
      simp [ha1.2.1]
    have hc12 : Board.eqv ((a1.2.make_move mv).2) ((a2.2.make_move mv).2) :=
      (make_move_eqv mv ha12).2
    have hmateq : a1.2.matrix = a2.2.matrix := ha12.1
    have hturneq : a1.2.turn = a2.2.turn := ha12.2.2.1
    have hwl : ((a1.2.make_move mv).2).status = State.RESULTED →
        ((a1.2.make_move mv).2).winner = ((a2.2.make_move mv).2).winner := by
      intro hres
      have hwin1 : win_at (a1.2.matrix.set mv a1.2.turn) mv = true :=
        (make_move_resulted_iff a1.2 mv G1 h8 hnm1).mp hres
      have hres2' : ((a2.2.make_move mv).2).status = State.RESULTED := by
        rw [← hc12.2.2.2.1]; exact hres
      have hwin2 : win_at (a2.2.matrix.set mv a2.2.turn) mv = true := by
        rw [← hmateq, ← hturneq]; exact hwin1
      rw [make_move_winner_of_win a1.2 mv h8 hnm1 hwin1,
        make_move_winner_of_win a2.2 mv h8 hnm2 hwin2, hmateq, hturneq]
    have hsc := hnext ((a1.2.make_move mv).2) ((a2.2.make_move mv).2)
      Gc1 hclen hc12 hwl
    apply ih (fun m hm => hl m (List.mem_cons_of_mem _ hm))
    · show (mm_step next1 is_max a1 mv).1 = (mm_step next2 is_max a2 mv).1
      unfold mm_step
      dsimp only
      rw [hsc, h11]
    · show Board.eqv ((next1 ((a1.2.make_move mv).2)).2.undo_move) x
      exact eqv_trans (undo_move_eqv (hres1 _ Gc1))
        (eqv_trans (make_undo_restore a1.2 mv G1 h8 hnm1) ha1)
    · show Board.eqv ((next2 ((a2.2.make_move mv).2)).2.undo_move) y
      have Gc2 : Good ((a2.2.make_move mv).2) := good_make_move a2.2 mv G2 h8 hnm2
      exact eqv_trans (undo_move_eqv (hres2 _ Gc2))
        (eqv_trans (make_undo_restore a2.2 mv G2 h8 hnm2) ha2)

/-- `minimax` scores agree across `eqv`-equal boards whose winners agree
when `RESULTED` (the stale `winner` left by searches is otherwise
irrelevant to scores). -/
theorem minimax_fst_congr (mover : Player) :
    ∀ (fuel : Nat) (x y : Board), Good x → Board.eqv x y →
      (x.status = State.RESULTED → x.winner = y.winner) →
      (minimax mover fuel x).1 = (minimax mover fuel y).1 := by
  intro fuel
  induction fuel with
  | zero =>
    intro x y G hxy hw
    by_cases h1 : x.status = State.RESULTED
    · rw [minimax_resulted mover 0 x h1,
        minimax_resulted mover 0 y (hxy.2.2.2.1 ▸ h1)]
      dsimp only
      rw [hw h1]
    · by_cases h2 : x.status = State.DRAW
      · rw [minimax_draw mover 0 x h1 h2,
          minimax_draw mover 0 y (hxy.2.2.2.1 ▸ h1) (hxy.2.2.2.1 ▸ h2)]
      · rw [minimax_zero mover x h1 h2,
          minimax_zero mover y (hxy.2.2.2.1 ▸ h1) (hxy.2.2.2.1 ▸ h2)]
        dsimp only
        rw [hxy.2.2.1]
  | succ n ih =>
    intro x y G hxy hw
    by_cases h1 : x.status = State.RESULTED
    · rw [minimax_resulted mover (n + 1) x h1,
        minimax_resulted mover (n + 1) y (hxy.2.2.2.1 ▸ h1)]
      dsimp only
      rw [hw h1]
    · by_cases h2 : x.status = State.DRAW
      · rw [minimax_draw mover (n + 1) x h1 h2,
          minimax_draw mover (n + 1) y (hxy.2.2.2.1 ▸ h1) (hxy.2.2.2.1 ▸ h2)]
      · rw [minimax_succ mover n x h1 h2,
          minimax_succ mover n y (hxy.2.2.2.1 ▸ h1) (hxy.2.2.2.1 ▸ h2)]
        have havail : find_available_moves y = find_available_moves x := by
          unfold find_available_moves
          rw [hxy.1]
        have hturn : (y.turn != mover) = (x.turn != mover) := by rw [hxy.2.2.1]
        rw [havail, hturn]
        exact foldl_mm_step_congr2 (minimax mover n) (minimax mover n)
          (x.turn != mover) x y G hxy
          (minimax_snd_eqv mover n) (minimax_snd_eqv mover n)
          (fun c d Gc _ hcd hwl => ih c d Gc hcd hwl)
          (find_available_moves x) (fun _ hm => hm) _ _ rfl
          (eqv_refl x) (eqv_refl y)

/-- With enough fuel to finish the game, one extra unit of fuel does not
change the `minimax` score. -/
theorem minimax_fst_fuel_succ (mover : Player) :
    ∀ (fuel : Nat) (b : Board), Good b → 9 ≤ fuel + b.moves.length →
      (minimax mover (fuel + 1) b).1 = (minimax mover fuel b).1 := by
  intro fuel
  induction fuel with
  | zero =>
    intro b G hf
    by_cases h1 : b.status = State.RESULTED
    · rw [minimax_resulted mover 1 b h1, minimax_resulted mover 0 b h1]
    · by_cases h2 : b.status = State.DRAW
      · rw [minimax_draw mover 1 b h1 h2, minimax_draw mover 0 b h1 h2]
      · exfalso
        have := good_inprogress_len b G h1 h2
        omega
  | succ n ih =>
    intro b G hf
    by_cases h1 : b.status = State.RESULTED
    · rw [minimax_resulted mover (n + 2) b h1, minimax_resulted mover (n + 1) b h1]
    · by_cases h2 : b.status = State.DRAW
      · rw [minimax_draw mover (n + 2) b h1 h2, minimax_draw mover (n + 1) b h1 h2]
      · rw [minimax_succ mover (n + 1) b h1 h2, minimax_succ mover n b h1 h2]
        apply foldl_mm_step_congr2 (minimax mover (n + 1)) (minimax mover n)
          (b.turn != mover) b b G (eqv_refl b)
          (minimax_snd_eqv mover (n + 1)) (minimax_snd_eqv mover n)
          (fun c d Gc hlen hcd hwl => by
            rw [ih c Gc (by omega)]
            exact minimax_fst_congr mover n c d Gc hcd hwl)
          (find_available_moves b) (fun _ hm => hm) _ _ rfl
          (eqv_refl b) (eqv_refl b)

/-- The score `minimax` assigns to the position after playing `mv` on `b`. -/
def mscore (mover : Player) (n : Nat) (b : Board) (mv : Nat) : Int :=
  (minimax mover n ((b.make_move mv).2)).1

/-- One `minimax`-loop step computes the max/min update formula on the
pristine child score, for any accumulator board `eqv` to the root. -/
theorem mm_step_fst (mover : Player) (n : Nat) (is_max : Bool) (b : Board)
    (G : Good b) (acc : Int × Board) (mv : Nat)
    (hacc : Board.eqv acc.2 b) (hmv : mv ∈ find_available_moves b) :
    (mm_step (minimax mover n) is_max acc mv).1 =
      if is_max = true ∧ mscore mover n b mv > acc.1 then mscore mover n b mv
      else if ¬(is_max = true) ∧ mscore mover n b mv < acc.1 then mscore mover n b mv
      else acc.1 := by
  obtain ⟨h8, hmm⟩ := available_legal b G mv hmv
  have Ga : Good acc.2 := good_of_eqv G hacc
  have hnm : mv ∉ acc.2.moves := by rw [hacc.2.1]; exact hmm
  have Gc : Good ((acc.2.make_move mv).2) := good_make_move acc.2 mv Ga h8 hnm
  have hc : Board.eqv ((acc.2.make_move mv).2) ((b.make_move mv).2) :=
    (make_move_eqv mv hacc).2
  have hwl : ((acc.2.make_move mv).2).status = State.RESULTED →
      ((acc.2.make_move mv).2).winner = ((b.make_move mv).2).winner := by
    intro hres
    have hwin1 : win_at (acc.2.matrix.set mv acc.2.turn) mv = true :=
      (make_move_resulted_iff acc.2 mv Ga h8 hnm).mp hres
    have hwin2 : win_at (b.matrix.set mv b.turn) mv = true := by
      rw [← hacc.1, ← hacc.2.2.1]; exact hwin1
    rw [make_move_winner_of_win acc.2 mv h8 hnm hwin1,
      make_move_winner_of_win b mv h8 hmm hwin2, hacc.1, hacc.2.2.1]
  have hsc : (minimax mover n ((acc.2.make_move mv).2)).1 = mscore mover n b mv :=
    minimax_fst_congr mover n _ _ Gc hc hwl
  unfold mm_step
  dsimp only
  rw [hsc]

/-- One `minimax`-loop step keeps the accumulator board `eqv` to the root. -/
theorem mm_step_snd_eqv (mover : Player) (n : Nat) (is_max : Bool) (b : Board)
    (G : Good b) (acc : Int × Board) (mv : Nat)
    (hacc : Board.eqv acc.2 b) (hmv : mv ∈ find_available_moves b) :
    Board.eqv ((mm_step (minimax mover n) is_max acc mv)).2 b := by
  obtain ⟨h8, hmm⟩ := available_legal b G mv hmv
  have Ga : Good acc.2 := good_of_eqv G hacc
  have hnm : mv ∉ acc.2.moves := by rw [hacc.2.1]; exact hmm
  have Gc : Good ((acc.2.make_move mv).2) := good_make_move acc.2 mv Ga h8 hnm
  show Board.eqv ((minimax mover n ((acc.2.make_move mv).2)).2.undo_move) b
  exact eqv_trans (undo_move_eqv (minimax_snd_eqv mover n _ Gc))
    (eqv_trans (make_undo_restore acc.2 mv Ga h8 hnm) hacc)

/-- Max-phase fold facts: the running best never decreases and ends at or
above every visited child score. -/
theorem foldl_mm_step_ge (mover : Player) (n : Nat) (b : Board) (G : Good b) :
    ∀ l : List Nat, (∀ mv ∈ l, mv ∈ find_available_moves b) →
      ∀ acc : Int × Board, Board.eqv acc.2 b →
        acc.1 ≤ (l.foldl (mm_step (minimax mover n) true) acc).1 ∧
        ∀ mv ∈ l, mscore mover n b mv ≤
          (l.foldl (mm_step (minimax mover n) true) acc).1 := by
  intro l
  induction l with
  | nil =>
    intro _ acc _
    exact ⟨le_refl _, by simp⟩
  | cons mv l ih =>
    intro hl acc hacc
    rw [List.foldl_cons]
    have hmv : mv ∈ find_available_moves b := hl mv (List.mem_cons_self _ _)
    have hstep := mm_step_fst mover n true b G acc mv hacc hmv
    have hacc' := mm_step_snd_eqv mover n true b G acc mv hacc hmv
    obtain ⟨ih1, ih2⟩ := ih (fun m hm => hl m (List.mem_cons_of_mem _ hm))
      (mm_step (minimax mover n) true acc mv) hacc'
    have hge : acc.1 ≤ (mm_step (minimax mover n) true acc mv).1 ∧
        mscore mover n b mv ≤ (mm_step (minimax mover n) true acc mv).1 := by
      rw [hstep]
      split
      · next h => exact ⟨le_of_lt h.2, le_refl _⟩
      · next h =>
        refine ⟨le_refl _, ?_⟩
        split
        · next h2 => exact absurd h2.1 (by simp)
        · push_neg at h
          exact h (by simp)
    refine ⟨le_trans hge.1 ih1, ?_⟩
    intro m hm
    rcases List.mem_cons.mp hm with h | h
    · subst h
      exact le_trans hge.2 ih1
    · exact ih2 m h

/-- Max-phase fold achievement: the final best is the initial value or
some visited child score. -/
theorem foldl_mm_step_ach (mover : Player) (n : Nat) (b : Board) (G : Good b) :
    ∀ l : List Nat, (∀ mv ∈ l, mv ∈ find_available_moves b) →
      ∀ acc : Int × Board, Board.eqv acc.2 b →
        (l.foldl (mm_step (minimax mover n) true) acc).1 = acc.1 ∨
        ∃ mv ∈ l, (l.foldl (mm_step (minimax mover n) true) acc).1 =
          mscore mover n b mv := by
  intro l
  induction l with
  | nil =>
    intro _ acc _
    exact Or.inl rfl
  | cons mv l ih =>
    intro hl acc hacc
    rw [List.foldl_cons]
    have hmv : mv ∈ find_available_moves b := hl mv (List.mem_cons_self _ _)
    have hstep := mm_step_fst mover n true b G acc mv hacc hmv
    have hacc' := mm_step_snd_eqv mover n true b G acc mv hacc hmv
    rcases ih (fun m hm => hl m (List.mem_cons_of_mem _ hm))
        (mm_step (minimax mover n) true acc mv) hacc' with h | ⟨m, hm, he⟩
    · rw [h, hstep]
      split
      · exact Or.inr ⟨mv, List.mem_cons_self _ _, rfl⟩
      · exact Or.inl rfl
    · exact Or.inr ⟨m, List.mem_cons_of_mem _ hm, he⟩

/-- Min-phase fold facts: the running best never increases and ends at or
below every visited child score. -/
theorem foldl_mm_step_le (mover : Player) (n : Nat) (b : Board) (G : Good b) :
    ∀ l : List Nat, (∀ mv ∈ l, mv ∈ find_available_moves b) →
      ∀ acc : Int × Board, Board.eqv acc.2 b →
        (l.foldl (mm_step (minimax mover n) false) acc).1 ≤ acc.1 ∧
        ∀ mv ∈ l, (l.foldl (mm_step (minimax mover n) false) acc).1 ≤
          mscore mover n b mv := by
  intro l
  induction l with
  | nil =>
    intro _ acc _
    exact ⟨le_refl _, by simp⟩
  | cons mv l ih =>
    intro hl acc hacc
    rw [List.foldl_cons]
    have hmv : mv ∈ find_available_moves b := hl mv (List.mem_cons_self _ _)
    have hstep := mm_step_fst mover n false b G acc mv hacc hmv
    have hacc' := mm_step_snd_eqv mover n false b G acc mv hacc hmv
    obtain ⟨ih1, ih2⟩ := ih (fun m hm => hl m (List.mem_cons_of_mem _ hm))
      (mm_step (minimax mover n) false acc mv) hacc'
    have hle : (mm_step (minimax mover n) false acc mv).1 ≤ acc.1 ∧
        (mm_step (minimax mover n) false acc mv).1 ≤ mscore mover n b mv := by
      rw [hstep]
      split
      · next h => exact absurd h.1 (by simp)
      · split
        · next h2 => exact ⟨le_of_lt h2.2, le_refl _⟩
        · next h2 =>
          push_neg at h2
          exact ⟨le_refl _, h2 (by simp)⟩
    refine ⟨le_trans ih1 hle.1, ?_⟩
    intro m hm
    rcases List.mem_cons.mp hm with h | h
    · subst h
      exact le_trans ih1 hle.2
    · exact ih2 m h

/-- Min-phase fold positivity: if the initial value and every visited
child score are nonnegative, so is the final best. -/
theorem foldl_mm_step_minpos (mover : Player) (n : Nat) (b : Board) (G : Good b) :
    ∀ l : List Nat, (∀ mv ∈ l, mv ∈ find_available_moves b) →
      ∀ acc : Int × Board, Board.eqv acc.2 b → 0 ≤ acc.1 →
        (∀ mv ∈ l, 0 ≤ mscore mover n b mv) →
        0 ≤ (l.foldl (mm_step (minimax mover n) false) acc).1 := by
  intro l
  induction l with
  | nil =>
    intro _ acc _ h0 _
    exact h0
  | cons mv l ih =>
    intro hl acc hacc h0 hall
    rw [List.foldl_cons]
    have hmv : mv ∈ find_available_moves b := hl mv (List.mem_cons_self _ _)
    have hstep := mm_step_fst mover n false b G acc mv hacc hmv
    have hacc' := mm_step_snd_eqv mover n false b G acc mv hacc hmv
    apply ih (fun m hm => hl m (List.mem_cons_of_mem _ hm))
      (mm_step (minimax mover n) false acc mv) hacc'
    · rw [hstep]
      split
      · next h => exact absurd h.1 (by simp)
      · split
        · exact hall mv (List.mem_cons_self _ _)
        · exact h0
    · exact fun m hm => hall m (List.mem_cons_of_mem _ hm)

/-- The perspective of a legal candidate is the post-move turn. -/
theorem candidate_perspective_eq (b : Board) (mv : Nat) (h8 : mv ≤ 8)
    (hm : mv ∉ b.moves) :
    b.candidate_perspective mv = b.change_turn.turn := by
  unfold Board.candidate_perspective
  exact make_move_ok_turn b mv h8 hm

/-- The score `get_best_move` assigns to a candidate move on `b`. -/
def bscore (b : Board) (mv : Nat) : Int :=
  (minimax (b.candidate_perspective mv) 9 ((b.make_move mv).2)).1

/-- Candidate scores lie in `[-1, 1]` on `Good` boards. -/
theorem bscore_bounds (b : Board) (G : Good b) (mv : Nat)
    (hmv : mv ∈ find_available_moves b) :
    -1 ≤ bscore b mv ∧ bscore b mv ≤ 1 := by
  obtain ⟨h8, hmm⟩ := available_legal b G mv hmv
  have Gc : Good ((b.make_move mv).2) := good_make_move b mv G h8 hmm
  exact minimax_bounds (b.candidate_perspective mv) 9 _ Gc (by omega)

/-- One `get_best_move` step computes the strict-improvement update on
the pristine candidate score, for any accumulator board `eqv` to the
root. -/
theorem best_step_fst (b : Board) (G : Good b) (acc : Int × Nat × Board)
    (mv : Nat) (hacc : Board.eqv acc.2.2 b)
    (hmv : mv ∈ find_available_moves b) :
    (Board.best_step acc mv).1 =
      (if bscore b mv > acc.1 then bscore b mv else acc.1) ∧
    (Board.best_step acc mv).2.1 =
      (if bscore b mv > acc.1 then mv else acc.2.1) := by
  obtain ⟨h8, hmm⟩ := available_legal b G mv hmv
  have Ga : Good acc.2.2 := good_of_eqv G hacc
  have hnm : mv ∉ acc.2.2.moves := by rw [hacc.2.1]; exact hmm
  have Gc : Good ((acc.2.2.make_move mv).2) := good_make_move acc.2.2 mv Ga h8 hnm
  have hcp : acc.2.2.candidate_perspective mv = b.candidate_perspective mv := by
    rw [candidate_perspective_eq acc.2.2 mv h8 hnm,
      candidate_perspective_eq b mv h8 hmm]
    exact change_turn_turn_congr acc.2.2 b hacc.2.2.1
  have hc : Board.eqv ((acc.2.2.make_move mv).2) ((b.make_move mv).2) :=
    (make_move_eqv mv hacc).2
  have hwl : ((acc.2.2.make_move mv).2).status = State.RESULTED →
      ((acc.2.2.make_move mv).2).winner = ((b.make_move mv).2).winner := by
    intro hres
    have hwin1 : win_at (acc.2.2.matrix.set mv acc.2.2.turn) mv = true :=
      (make_move_resulted_iff acc.2.2 mv Ga h8 hnm).mp hres
    have hwin2 : win_at (b.matrix.set mv b.turn) mv = true := by
      rw [← hacc.1, ← hacc.2.2.1]; exact hwin1
    rw [make_move_winner_of_win acc.2.2 mv h8 hnm hwin1,
      make_move_winner_of_win b mv h8 hmm hwin2, hacc.1, hacc.2.2.1]
  have hsc : (minimax (acc.2.2.candidate_perspective mv) 9
      ((acc.2.2.make_move mv).2)).1 = bscore b mv := by
    rw [hcp]
    exact minimax_fst_congr (b.candidate_perspective mv) 9 _ _ Gc hc hwl
  constructor
  · show (Board.best_step acc mv).1 = _
    unfold Board.best_step
    dsimp only
    rw [hsc]
    split_ifs <;> rfl
  · show (Board.best_step acc mv).2.1 = _
    unfold Board.best_step
    dsimp only
    rw [hsc]
    split_ifs <;> rfl

/-- One `get_best_move` step keeps the accumulator board `eqv` to the
root. -/
theorem best_step_snd_eqv (b : Board) (G : Good b) (acc : Int × Nat × Board)
    (mv : Nat) (hacc : Board.eqv acc.2.2 b)
    (hmv : mv ∈ find_available_moves b) :
    Board.eqv ((Board.best_step acc mv)).2.2 b := by
  obtain ⟨h8, hmm⟩ := available_legal b G mv hmv
  have Ga : Good acc.2.2 := good_of_eqv G hacc
  have hnm : mv ∉ acc.2.2.moves := by rw [hacc.2.1]; exact hmm
  have Gc : Good ((acc.2.2.make_move mv).2) := good_make_move acc.2.2 mv Ga h8 hnm
  have hud := undo_move_eqv
    (minimax_snd_eqv (acc.2.2.candidate_perspective mv) 9
      ((acc.2.2.make_move mv).2) Gc)
  have hend := eqv_trans hud
    (eqv_trans (make_undo_restore acc.2.2 mv Ga h8 hnm) hacc)
  unfold Board.best_step
  dsimp only
  split
  · exact hend
  · exact hend

/-- `get_best_move`-loop facts: the running best never decreases, ends
at or above every visited candidate score, and the final selection either
is the initial one (untouched, with the initial score) or is a visited
candidate achieving the final best. -/
theorem foldl_best_step_argmax (b : Board) (G : Good b) :
    ∀ l : List Nat, (∀ mv ∈ l, mv ∈ find_available_moves b) →
      ∀ acc : Int × Nat × Board, Board.eqv acc.2.2 b →
        acc.1 ≤ (l.foldl Board.best_step acc).1 ∧
        (∀ mv ∈ l, bscore b mv ≤ (l.foldl Board.best_step acc).1) ∧
        (((l.foldl Board.best_step acc).1 = acc.1 ∧
          (l.foldl Board.best_step acc).2.1 = acc.2.1) ∨
          ((l.foldl Board.best_step acc).2.1 ∈ l ∧
            bscore b ((l.foldl Board.best_step acc).2.1) =
              (l.foldl Board.best_step acc).1)) := by
  intro l
  induction l with
  | nil =>
    intro _ acc _
    exact ⟨le_refl _, by simp, Or.inl ⟨rfl, rfl⟩⟩
  | cons mv l ih =>
    intro hl acc hacc
    rw [List.foldl_cons]
    have hmv : mv ∈ find_available_moves b := hl mv (List.mem_cons_self _ _)
    obtain ⟨hs1, hs2⟩ := best_step_fst b G acc mv hacc hmv
    have hacc' := best_step_snd_eqv b G acc mv hacc hmv
    obtain ⟨A, B, C⟩ := ih (fun m hm => hl m (List.mem_cons_of_mem _ hm))
      (Board.best_step acc mv) hacc'
    have hstep : acc.1 ≤ (Board.best_step acc mv).1 ∧
        bscore b mv ≤ (Board.best_step acc mv).1 ∧
        (((Board.best_step acc mv).1 = acc.1 ∧
          (Board.best_step acc mv).2.1 = acc.2.1) ∨
          ((Board.best_step acc mv).2.1 = mv ∧
            bscore b ((Board.best_step acc mv).2.1) =
              (Board.best_step acc mv).1)) := by
      rw [hs1, hs2]
      split_ifs with h
      · exact ⟨le_of_lt h, le_refl _, Or.inr ⟨rfl, rfl⟩⟩
      · exact ⟨le_refl _, le_of_not_lt h, Or.inl ⟨rfl, rfl⟩⟩
    refine ⟨le_trans hstep.1 A, ?_, ?_⟩
    · intro m hm
      rcases List.mem_cons.mp hm with h | h
      · subst h
        exact le_trans hstep.2.1 A
      · exact B m h
    · rcases C with ⟨hcf, hcs⟩ | ⟨hmem, hsc⟩
      · rcases hstep.2.2 with ⟨hf, hs⟩ | ⟨hm, hs⟩
        · exact Or.inl ⟨hcf.trans hf, hcs.trans hs⟩
        · refine Or.inr ⟨?_, ?_⟩
          · rw [hcs, hm]
            exact List.mem_cons_self _ _
          · rw [hcs, hcf]
            exact hs
      · exact Or.inr ⟨List.mem_cons_of_mem _ hmem, hsc⟩

/-- On a `Good` board with available moves, `get_best_move` returns an
available move whose candidate score is maximal among all available
moves. -/
theorem get_best_move_argmax (b : Board) (G : Good b)
    (hne : find_available_moves b ≠ []) :
    (b.get_best_move).1 ∈ find_available_moves b ∧
    ∀ mv ∈ find_available_moves b,
      bscore b mv ≤ bscore b ((b.get_best_move).1) := by
  obtain ⟨A, B, C⟩ := foldl_best_step_argmax b G (find_available_moves b)
    (fun _ hm => hm) (-1000, 0, b) (eqv_refl b)
  have hfold : (b.get_best_move).1 =
      ((find_available_moves b).foldl Board.best_step (-1000, 0, b)).2.1 := rfl
  rcases C with ⟨hc1, _⟩ | ⟨hmem, hsc⟩
  · exfalso
    obtain ⟨mv0, hmv0⟩ := List.exists_mem_of_ne_nil _ hne
    have hlow := B mv0 hmv0
    rw [hc1] at hlow
    have hb := (bscore_bounds b G mv0 hmv0).1
    omega
  · refine ⟨hfold ▸ hmem, ?_⟩
    intro mv hmv
    rw [hfold, hsc]
    exact B mv hmv

/-- At a non-terminal node where the side to move is not `mover`
(a max node), the fuel-9 `minimax` value dominates every fuel-8 child
score and equals one of them. -/
theorem minimax9_max_node (mover : Player) (b : Board) (G : Good b)
    (h1 : b.status ≠ State.RESULTED) (h2 : b.status ≠ State.DRAW)
    (hmax : (b.turn != mover) = true) :
    (∀ mv ∈ find_available_moves b, mscore mover 8 b mv ≤ (minimax mover 9 b).1) ∧
    ∃ mv ∈ find_available_moves b, (minimax mover 9 b).1 = mscore mover 8 b mv := by
  have hrw : (minimax mover 9 b).1 =
      ((find_available_moves b).foldl (mm_step (minimax mover 8) true)
        (-1000, b)).1 := by
    rw [minimax_succ mover 8 b h1 h2, hmax, if_pos rfl]
  obtain ⟨_, hge⟩ := foldl_mm_step_ge mover 8 b G (find_available_moves b)
    (fun _ hm => hm) (-1000, b) (eqv_refl b)
  have hach := foldl_mm_step_ach mover 8 b G (find_available_moves b)
    (fun _ hm => hm) (-1000, b) (eqv_refl b)
  refine ⟨fun mv hmv => by rw [hrw]; exact hge mv hmv, ?_⟩
  rcases hach with hinit | ⟨mv, hmv, he⟩
  · exfalso
    have hb := (minimax_bounds mover 9 b G (by omega)).1
    rw [hrw, hinit] at hb
    omega
  · exact ⟨mv, hmv, by rw [hrw]; exact he⟩

/-- At a non-terminal node where the side to move is `mover` (a min
node), the fuel-9 `minimax` value is below every fuel-8 child score, and
is nonnegative whenever every child score is. -/
theorem minimax9_min_node (mover : Player) (b : Board) (G : Good b)
    (h1 : b.status ≠ State.RESULTED) (h2 : b.status ≠ State.DRAW)
    (hmin : (b.turn != mover) = false) :
    (∀ mv ∈ find_available_moves b, (minimax mover 9 b).1 ≤ mscore mover 8 b mv) ∧
    ((∀ mv ∈ find_available_moves b, 0 ≤ mscore mover 8 b mv) →
      0 ≤ (minimax mover 9 b).1) := by
  have hrw : (minimax mover 9 b).1 =
      ((find_available_moves b).foldl (mm_step (minimax mover 8) false)
        (1000, b)).1 := by
    rw [minimax_succ mover 8 b h1 h2, hmin, if_neg (by simp)]
  obtain ⟨_, hle⟩ := foldl_mm_step_le mover 8 b G (find_available_moves b)
    (fun _ hm => hm) (1000, b) (eqv_refl b)
  refine ⟨fun mv hmv => by rw [hrw]; exact hle mv hmv, fun hall => ?_⟩
  rw [hrw]
  exact foldl_mm_step_minpos mover 8 b G (find_available_moves b)
    (fun _ hm => hm) (1000, b) (eqv_refl b) (by omega) hall

/-- Fuel 8 already suffices for child scores: they equal the fuel-9
scores. -/
theorem mscore_fuel9 (mover : Player) (b : Board) (G : Good b) (mv : Nat)
    (hmv : mv ∈ find_available_moves b) :
    mscore mover 8 b mv = mscore mover 9 b mv := by
  obtain ⟨h8, hmm⟩ := available_legal b G mv hmv
  have Gc : Good ((b.make_move mv).2) := good_make_move b mv G h8 hmm
  have hlen : ((b.make_move mv).2).moves.length = b.moves.length + 1 := by
    rw [make_move_ok_moves b mv h8 hmm]; simp
  unfold mscore
  exact (minimax_fst_fuel_succ mover 8 ((b.make_move mv).2) Gc (by omega)).symm

/-- When the engine `E` is to move, the candidate scores `get_best_move`
uses coincide with the fuel-9 `minimax` scores from the opponent's
perspective. -/
theorem bscore_eq_mscore (E mover : Player)
    (hEO : (E = Player.X ∧ mover = Player.O) ∨
      (E = Player.O ∧ mover = Player.X))
    (b : Board) (hturn : b.turn = E) (mv : Nat) (h8 : mv ≤ 8)
    (hm : mv ∉ b.moves) :
    bscore b mv = mscore mover 9 b mv := by
  have hcp : b.candidate_perspective mv = mover := by
    rw [candidate_perspective_eq b mv h8 hm]
    rcases hEO with ⟨hE, hO⟩ | ⟨hE, hO⟩ <;>
      simp [Board.change_turn, hturn, hE, hO]
  unfold bscore mscore
  rw [hcp]

/-- One engine turn: ask `get_best_move` (which mutates the board in
place, as in the source) and play the returned index on the board it
left behind. -/
def engine_move (b : Board) : Board :=
  ((b.get_best_move).2.make_move (b.get_best_move).1).2

/-- An engine turn from a non-terminal position with nonnegative
opponent-perspective value yields a `Good` successor, keeps the value
nonnegative, adds one move, and can only have ended the game in the
engine's favour. -/
theorem engine_step (E mover : Player)
    (hEO : (E = Player.X ∧ mover = Player.O) ∨
      (E = Player.O ∧ mover = Player.X))
    (b : Board) (G : Good b)
    (h1 : b.status ≠ State.RESULTED) (h2 : b.status ≠ State.DRAW)
    (hturn : b.turn = E) (hval : 0 ≤ (minimax mover 9 b).1) :
    Good (engine_move b) ∧ 0 ≤ (minimax mover 9 (engine_move b)).1 ∧
    (engine_move b).moves.length = b.moves.length + 1 ∧
    ((engine_move b).status = State.RESULTED → (engine_move b).winner = E) := by
  have hne := available_nonempty b G (good_inprogress_len b G h1 h2)
  obtain ⟨hmem, hargmax⟩ := get_best_move_argmax b G hne
  obtain ⟨h8, hmm⟩ := available_legal b G (b.get_best_move).1 hmem
  have r2eqv : Board.eqv (b.get_best_move).2 b := get_best_move_snd_eqv b G
  have Gr2 : Good (b.get_best_move).2 := good_of_eqv G r2eqv
  have hnm2 : (b.get_best_move).1 ∉ ((b.get_best_move).2).moves := by
    rw [r2eqv.2.1]; exact hmm
  have Gnb : Good (engine_move b) := good_make_move _ _ Gr2 h8 hnm2
  have hlen : (engine_move b).moves.length = b.moves.length + 1 := by
    show (((b.get_best_move).2.make_move (b.get_best_move).1).2).moves.length = _
    rw [make_move_ok_moves _ _ h8 hnm2]
    simp [r2eqv.2.1]
  have hceqv : Board.eqv (engine_move b) ((b.make_move (b.get_best_move).1).2) :=
    (make_move_eqv (b.get_best_move).1 r2eqv).2
  have hwl : (engine_move b).status = State.RESULTED →
      (engine_move b).winner = ((b.make_move (b.get_best_move).1).2).winner := by
    intro hres
    have hwin1 : win_at (((b.get_best_move).2).matrix.set (b.get_best_move).1
        ((b.get_best_move).2).turn) (b.get_best_move).1 = true :=
      (make_move_resulted_iff _ _ Gr2 h8 hnm2).mp hres
    have hwin2 : win_at (b.matrix.set (b.get_best_move).1 b.turn)
        (b.get_best_move).1 = true := by
      rw [← r2eqv.1, ← r2eqv.2.2.1]; exact hwin1
    show (((b.get_best_move).2.make_move (b.get_best_move).1).2).winner = _
    rw [make_move_winner_of_win _ _ h8 hnm2 hwin1,
      make_move_winner_of_win b _ h8 hmm hwin2, r2eqv.1, r2eqv.2.2.1]
  have hnbval : (minimax mover 9 (engine_move b)).1 =
      mscore mover 9 b (b.get_best_move).1 :=
    minimax_fst_congr mover 9 _ _ Gnb hceqv hwl
  have hmax : (b.turn != mover) = true := by
    rcases hEO with ⟨hE, hO⟩ | ⟨hE, hO⟩ <;> rw [hturn, hE, hO] <;> rfl
  obtain ⟨_, mvj, hmvj, hach⟩ := minimax9_max_node mover b G h1 h2 hmax
  have hchain : (minimax mover 9 b).1 ≤ mscore mover 9 b (b.get_best_move).1 := by
    obtain ⟨hj8, hjm⟩ := available_legal b G mvj hmvj
    calc (minimax mover 9 b).1 = mscore mover 8 b mvj := hach
      _ = mscore mover 9 b mvj := mscore_fuel9 mover b G mvj hmvj
      _ = bscore b mvj := (bscore_eq_mscore E mover hEO b hturn mvj hj8 hjm).symm
      _ ≤ bscore b (b.get_best_move).1 := hargmax mvj hmvj
      _ = mscore mover 9 b (b.get_best_move).1 :=
        bscore_eq_mscore E mover hEO b hturn (b.get_best_move).1 h8 hmm
  refine ⟨Gnb, ?_, hlen, ?_⟩
  · rw [hnbval]
    exact le_trans hval hchain
  · intro hres
    have hwin1 : win_at (((b.get_best_move).2).matrix.set (b.get_best_move).1
        ((b.get_best_move).2).turn) (b.get_best_move).1 = true :=
      (make_move_resulted_iff _ _ Gr2 h8 hnm2).mp hres
    show (((b.get_best_move).2.make_move (b.get_best_move).1).2).winner = E
    rw [make_move_winner_of_win _ _ h8 hnm2 hwin1]
    unfold cell
    rw [getD_set_self _ _ _ (by rw [Gr2.mlen]; omega), r2eqv.2.2.1, hturn]

/-- Any legal opponent reply from a non-terminal position with
nonnegative opponent-perspective value yields a `Good` successor, keeps
the value nonnegative, adds one move, and cannot have ended the game:
from such a position the opponent has no immediately winning reply. -/
theorem opponent_step (E mover : Player)
    (hEO : (E = Player.X ∧ mover = Player.O) ∨
      (E = Player.O ∧ mover = Player.X))
    (b : Board) (G : Good b)
    (h1 : b.status ≠ State.RESULTED) (h2 : b.status ≠ State.DRAW)
    (hturn : b.turn ≠ E) (hval : 0 ≤ (minimax mover 9 b).1)
    (mv : Nat) (hmv : mv ∈ find_available_moves b) :
    Good ((b.make_move mv).2) ∧ 0 ≤ (minimax mover 9 ((b.make_move mv).2)).1 ∧
    ((b.make_move mv).2).moves.length = b.moves.length + 1 := by
  obtain ⟨h8, hmm⟩ := available_legal b G mv hmv
  have Gc : Good ((b.make_move mv).2) := good_make_move b mv G h8 hmm
  have hlen : ((b.make_move mv).2).moves.length = b.moves.length + 1 := by
    rw [make_move_ok_moves b mv h8 hmm]; simp
  have hmin : (b.turn != mover) = false := by
    have hXO := G.turnXO
    rcases hEO with ⟨hE, hO⟩ | ⟨hE, hO⟩ <;> rcases hXO with hX | hX <;>
      rw [hX, hO] <;> first
      | rfl
      | (exfalso; apply hturn; rw [hX, hE])
  obtain ⟨hlb, _⟩ := minimax9_min_node mover b G h1 h2 hmin
  refine ⟨Gc, ?_, hlen⟩
  have := hlb mv hmv
  rw [mscore_fuel9 mover b G mv hmv] at this
  exact le_trans hval this

/-- A `Good` board's status is one of the three states `statusOf`
produces. -/
theorem good_status_cases (b : Board) (G : Good b) :
    b.status = State.RESULTED ∨ b.status = State.DRAW ∨
      b.status = State.INPROGRESS := by
  rw [G.consistent]
  unfold statusOf
  split_ifs <;> simp

/-- The game driver: while the game is in progress, the engine plays
`get_best_move` on its turns (on the board the search leaves behind, as
the mutating source does) and the opponent strategy `σ` picks the reply
on its turns.  `fuel` bounds the number of turns. -/
def play (E : Player) (σ : Board → Nat) : Nat → Board → Board
  | 0, b => b
  | fuel + 1, b =>
    if b.status = State.INPROGRESS then
      if b.turn = E then play E σ fuel (engine_move b)
      else play E σ fuel ((b.make_move (σ b)).2)
    else b

/-- The played-game invariant: the board is `Good`, the
opponent-perspective game value is nonnegative, and a decided game was
decided for the engine. -/
def PlayInv (E mover : Player) (b : Board) : Prop :=
  Good b ∧ 0 ≤ (minimax mover 9 b).1 ∧
    (b.status = State.RESULTED → b.winner = E)

/-- Playing preserves the invariant, and with fuel covering the
remaining depth the final position is no longer in progress. -/
theorem play_good (E mover : Player)
    (hEO : (E = Player.X ∧ mover = Player.O) ∨
      (E = Player.O ∧ mover = Player.X))
    (σ : Board → Nat)
    (hσ : ∀ b : Board, Good b → b.status = State.INPROGRESS →
      σ b ∈ find_available_moves b) :
    ∀ (fuel : Nat) (b : Board), PlayInv E mover b →
      PlayInv E mover (play E σ fuel b) ∧
      (9 ≤ fuel + b.moves.length →
        (play E σ fuel b).status ≠ State.INPROGRESS) := by
  intro fuel
  induction fuel with
  | zero =>
    intro b hinv
    refine ⟨hinv, fun hf hip => ?_⟩
    have hip' : b.status = State.INPROGRESS := hip
    have h1 : b.status ≠ State.RESULTED := by rw [hip']; decide
    have h2 : b.status ≠ State.DRAW := by rw [hip']; decide
    have := good_inprogress_len b hinv.1 h1 h2
    omega
  | succ n ih =>
    intro b hinv
    obtain ⟨G, hval, hwE⟩ := hinv
    show PlayInv E mover (play E σ (n + 1) b) ∧ _
    unfold play
    by_cases hip : b.status = State.INPROGRESS
    · rw [if_pos hip]
      have h1 : b.status ≠ State.RESULTED := by rw [hip]; decide
      have h2 : b.status ≠ State.DRAW := by rw [hip]; decide
      by_cases hturn : b.turn = E
      · rw [if_pos hturn]
        obtain ⟨Gnb, hvnb, hlen, hwnb⟩ :=
          engine_step E mover hEO b G h1 h2 hturn hval
        obtain ⟨hinv', hterm'⟩ := ih (engine_move b) ⟨Gnb, hvnb, hwnb⟩
        exact ⟨hinv', fun hf => hterm' (by omega)⟩
      · rw [if_neg hturn]
        have hmv := hσ b G hip
        obtain ⟨Gc, hvc, hlen⟩ :=
          opponent_step E mover hEO b G h1 h2 hturn hval (σ b) hmv
        have hwc : ((b.make_move (σ b)).2).status = State.RESULTED →
            ((b.make_move (σ b)).2).winner = E := by
          intro hres
          exfalso
          obtain ⟨h8, hmm⟩ := available_legal b G (σ b) hmv
          have hwin := (make_move_resulted_iff b (σ b) G h8 hmm).mp hres
          have hw : ((b.make_move (σ b)).2).winner = b.turn := by
            rw [make_move_winner_of_win b (σ b) h8 hmm hwin]
            unfold cell
            exact getD_set_self _ _ _ (by rw [G.mlen]; omega)
          have hbm : b.turn = mover := by
            have hXO := G.turnXO
            rcases hEO with ⟨hE, hO⟩ | ⟨hE, hO⟩ <;> rcases hXO with hX | hX <;>
              rw [hX, hO] <;> first
              | rfl
              | (exfalso; apply hturn; rw [hX, hE])
          have : (minimax mover 9 ((b.make_move (σ b)).2)).1 = -1 := by
            rw [minimax_resulted mover 9 _ hres]
            dsimp only
            rw [if_neg (by rw [hw, hbm]; simp)]
          omega
        obtain ⟨hinv', hterm'⟩ := ih ((b.make_move (σ b)).2) ⟨Gc, hvc, hwc⟩
        exact ⟨hinv', fun hf => hterm' (by omega)⟩
    · rw [if_neg hip]
      exact ⟨⟨G, hval, hwE⟩, fun _ => hip⟩

/-- From any invariant position with enough fuel, the played game ends in
a draw or an engine win. -/
theorem play_outcome (E mover : Player)
    (hEO : (E = Player.X ∧ mover = Player.O) ∨
      (E = Player.O ∧ mover = Player.X))
    (σ : Board → Nat)
    (hσ : ∀ b : Board, Good b → b.status = State.INPROGRESS →
      σ b ∈ find_available_moves b)
    (fuel : Nat) (b : Board) (hinv : PlayInv E mover b)
    (hfuel : 9 ≤ fuel + b.moves.length) :
    (play E σ fuel b).status = State.DRAW ∨
    ((play E σ fuel b).status = State.RESULTED ∧
      (play E σ fuel b).winner = E) := by
  obtain ⟨⟨G', hval', hwE'⟩, hterm⟩ := play_good E mover hEO σ hσ fuel b hinv
  rcases good_status_cases (play E σ fuel b) G' with h | h | h
  · exact Or.inr ⟨h, hwE' h⟩
  · exact Or.inl h
  · exact absurd h (hterm hfuel)

/-- A strategy certificate for the engine: the engine's move at the
current position, and a sub-certificate for every opponent reply. -/
inductive Cert where
  | mk (mv : Nat) (replies : List (Nat × Cert))

/-- Find the sub-certificate recorded for reply `p`. -/
def lookupCert (rs : List (Nat × Cert)) (p : Nat) : Option Cert :=
  match rs.find? (fun e => e.1 == p) with
  | none => none
  | some e => some e.2

/-- Walk a certificate: the position is secured for `E` when the game is
already drawn or won by `E`, or, on `E`'s turn, the certified move is
available and leads to a secured position, and on the opponent's turn
every available reply has a sub-certificate securing its successor. -/
def secured (E : Player) : Nat → Cert → Board → Bool
  | 0, _, _ => false
  | fuel + 1, c, b =>
    if b.status = State.RESULTED then b.winner == E
    else if b.status = State.DRAW then true
    else if b.turn == E then
      match c with
      | Cert.mk mv _ =>
        (find_available_moves b).contains mv &&
          secured E fuel c ((b.make_move mv).2)
    else
      match c with
      | Cert.mk _ replies =>
        (find_available_moves b).all (fun p =>
          match lookupCert replies p with
          | none => false
          | some c2 => secured E fuel c2 ((b.make_move p).2))

/-- Certificate soundness: a secured `Good` position has nonnegative
fuel-9 `minimax` value from the opponent's perspective. -/
theorem secured_sound (E mover : Player)
    (hEO : (E = Player.X ∧ mover = Player.O) ∨
      (E = Player.O ∧ mover = Player.X)) :
    ∀ (fuel : Nat) (c : Cert) (b : Board), Good b →
      secured E fuel c b = true → 0 ≤ (minimax mover 9 b).1 := by
  have hEm : E ≠ mover := by
    rcases hEO with ⟨hE, hO⟩ | ⟨hE, hO⟩ <;> rw [hE, hO] <;> decide
  intro fuel
  induction fuel with
  | zero =>
    intro c b G hs
    rw [secured] at hs
    exact absurd hs (by decide)
  | succ n ih =>
    intro c b G hs
    rw [secured.eq_def] at hs
    dsimp only at hs
    by_cases h1 : b.status = State.RESULTED
    · rw [if_pos h1] at hs
      have hw : b.winner = E := by simpa using hs
      rw [minimax_resulted mover 9 b h1]
      dsimp only
      rw [if_pos (by rw [hw]; exact hEm)]
      omega
    · rw [if_neg h1] at hs
      by_cases h2 : b.status = State.DRAW
      · rw [minimax_draw mover 9 b h1 h2]
      · rw [if_neg h2] at hs
        by_cases hturn : b.turn = E
        · rw [if_pos (by simp [hturn])] at hs
          obtain ⟨mv, replies⟩ := c
          rw [Bool.and_eq_true] at hs
          obtain ⟨hc, hrec⟩ := hs
          have hmem : mv ∈ find_available_moves b := by
            simpa [List.contains, List.elem_eq_mem] using hc
          obtain ⟨h8, hmm⟩ := available_legal b G mv hmem
          have Gc : Good ((b.make_move mv).2) := good_make_move b mv G h8 hmm
          have hvc := ih (Cert.mk mv replies) ((b.make_move mv).2) Gc hrec
          have hmax : (b.turn != mover) = true := by
            rcases hEO with ⟨hE, hO⟩ | ⟨hE, hO⟩ <;> rw [hturn, hE, hO] <;> rfl
          obtain ⟨hub, _⟩ := minimax9_max_node mover b G h1 h2 hmax
          have hle := hub mv hmem
          rw [mscore_fuel9 mover b G mv hmem] at hle
          unfold mscore at hle
          exact le_trans hvc hle
        · rw [if_neg (by simp [hturn])] at hs
          obtain ⟨mv0, replies⟩ := c
          rw [List.all_eq_true] at hs
          have hmin : (b.turn != mover) = false := by
            have hXO := G.turnXO
            rcases hEO with ⟨hE, hO⟩ | ⟨hE, hO⟩ <;> rcases hXO with hX | hX <;>
              rw [hX, hO] <;> first
              | rfl
              | (exfalso; apply hturn; rw [hX, hE])
          obtain ⟨_, hpos⟩ := minimax9_min_node mover b G h1 h2 hmin
          apply hpos
          intro mv hmv
          have hr := hs mv hmv
          cases hl : lookupCert replies mv with
          | none =>
            rw [hl] at hr
            dsimp only at hr
            exact Bool.noConfusion hr
          | some c2 =>
            rw [hl] at hr
            obtain ⟨h8, hmm⟩ := available_legal b G mv hmv
            have Gc : Good ((b.make_move mv).2) := good_make_move b mv G h8 hmm
            have hvc := ih c2 ((b.make_move mv).2) Gc hr
            rw [mscore_fuel9 mover b G mv hmv]
            unfold mscore
            exact hvc

/-- A perfect-play certificate for the engine moving first on an empty
board (generated offline from the game tree; checked by the kernel
below). -/
def certFirst : Cert :=
  Cert.mk 0 [(1, Cert.mk 3 [(2, Cert.mk 4 [(5, Cert.mk 6 []), (6, Cert.mk 5 []), (7, Cert.mk 5 []), (8, Cert.mk 5 [])]), (4, Cert.mk 6 []), (5, Cert.mk 4 [(2, Cert.mk 6 []), (6, Cert.mk 8 []), (7, Cert.mk 2 [(6, Cert.mk 8 []), (8, Cert.mk 6 [])]), (8, Cert.mk 6 [])]), (6, Cert.mk 4 [(2, Cert.mk 5 []), (5, Cert.mk 8 []), (7, Cert.mk 5 []), (8, Cert.mk 5 [])]), (7, Cert.mk 4 [(2, Cert.mk 5 []), (5, Cert.mk 2 [(6, Cert.mk 8 []), (8, Cert.mk 6 [])]), (6, Cert.mk 5 []), (8, Cert.mk 5 [])]), (8, Cert.mk 4 [(2, Cert.mk 5 []), (5, Cert.mk 6 []), (6, Cert.mk 5 []), (7, Cert.mk 5 [])])]), (2, Cert.mk 3 [(1, Cert.mk 4 [(5, Cert.mk 6 []), (6, Cert.mk 5 []), (7, Cert.mk 5 []), (8, Cert.mk 5 [])]), (4, Cert.mk 6 []), (5, Cert.mk 6 []), (6, Cert.mk 4 [(1, Cert.mk 5 []), (5, Cert.mk 8 []), (7, Cert.mk 5 []), (8, Cert.mk 5 [])]), (7, Cert.mk 4 [(1, Cert.mk 5 []), (5, Cert.mk 6 []), (6, Cert.mk 5 []), (8, Cert.mk 5 [])]), (8, Cert.mk 5 [(1, Cert.mk 4 []), (4, Cert.mk 6 []), (6, Cert.mk 4 []), (7, Cert.mk 4 [])])]), (3, Cert.mk 1 [(2, Cert.mk 4 [(5, Cert.mk 7 []), (6, Cert.mk 5 [(7, Cert.mk 8 []), (8, Cert.mk 7 [])]), (7, Cert.mk 8 []), (8, Cert.mk 7 [])]), (4, Cert.mk 2 []), (5, Cert.mk 2 []), (6, Cert.mk 2 []), (7, Cert.mk 2 []), (8, Cert.mk 2 [])]), (4, Cert.mk 1 [(2, Cert.mk 6 [(3, Cert.mk 5 [(7, Cert.mk 8 []), (8, Cert.mk 7 [])]), (5, Cert.mk 3 []), (7, Cert.mk 3 []), (8, Cert.mk 3 [])]), (3, Cert.mk 2 []), (5, Cert.mk 2 []), (6, Cert.mk 2 []), (7, Cert.mk 2 []), (8, Cert.mk 2 [])]), (5, Cert.mk 2 [(1, Cert.mk 4 [(3, Cert.mk 6 []), (6, Cert.mk 8 []), (7, Cert.mk 3 [(6, Cert.mk 8 []), (8, Cert.mk 6 [])]), (8, Cert.mk 6 [])]), (3, Cert.mk 1 []), (4, Cert.mk 1 []), (6, Cert.mk 1 []), (7, Cert.mk 1 []), (8, Cert.mk 1 [])]), (6, Cert.mk 1 [(2, Cert.mk 4 [(3, Cert.mk 5 [(7, Cert.mk 8 []), (8, Cert.mk 7 [])]), (5, Cert.mk 7 []), (7, Cert.mk 8 []), (8, Cert.mk 7 [])]), (3, Cert.mk 2 []), (4, Cert.mk 2 []), (5, Cert.mk 2 []), (7, Cert.mk 2 []), (8, Cert.mk 2 [])]), (7, Cert.mk 2 [(1, Cert.mk 4 [(3, Cert.mk 5 [(6, Cert.mk 8 []), (8, Cert.mk 6 [])]), (5, Cert.mk 3 [(6, Cert.mk 8 []), (8, Cert.mk 6 [])]), (6, Cert.mk 8 []), (8, Cert.mk 6 [])]), (3, Cert.mk 1 []), (4, Cert.mk 1 []), (5, Cert.mk 1 []), (6, Cert.mk 1 []), (8, Cert.mk 1 [])]), (8, Cert.mk 2 [(1, Cert.mk 6 [(3, Cert.mk 4 []), (4, Cert.mk 3 []), (5, Cert.mk 3 []), (7, Cert.mk 3 [])]), (3, Cert.mk 1 []), (4, Cert.mk 1 []), (5, Cert.mk 1 []), (6, Cert.mk 1 []), (7, Cert.mk 1 [])])]

/-- A perfect-play certificate for the engine moving second on an empty
board. -/
def certSecond : Cert :=
  Cert.mk 0 [(0, Cert.mk 4 [(1, Cert.mk 2 [(3, Cert.mk 6 []), (5, Cert.mk 6 []), (6, Cert.mk 3 [(5, Cert.mk 7 [(8, Cert.mk 0 [])]), (7, Cert.mk 5 []), (8, Cert.mk 5 [])]), (7, Cert.mk 3 [(5, Cert.mk 6 []), (6, Cert.mk 5 []), (8, Cert.mk 5 [])]), (8, Cert.mk 3 [(5, Cert.mk 6 []), (6, Cert.mk 5 []), (7, Cert.mk 5 [])])]), (2, Cert.mk 1 [(3, Cert.mk 7 []), (5, Cert.mk 7 []), (6, Cert.mk 3 [(5, Cert.mk 7 []), (7, Cert.mk 5 []), (8, Cert.mk 5 [])]), (7, Cert.mk 3 [(5, Cert.mk 8 [(6, Cert.mk 0 [])]), (6, Cert.mk 5 []), (8, Cert.mk 5 [])]), (8, Cert.mk 5 [(3, Cert.mk 7 []), (6, Cert.mk 3 []), (7, Cert.mk 3 [])])]), (3, Cert.mk 6 [(1, Cert.mk 2 []), (2, Cert.mk 1 [(5, Cert.mk 7 []), (7, Cert.mk 5 [(8, Cert.mk 0 [])]), (8, Cert.mk 7 [])]), (5, Cert.mk 1 [(2, Cert.mk 7 []), (7, Cert.mk 2 []), (8, Cert.mk 2 [])]), (7, Cert.mk 2 []), (8, Cert.mk 1 [(2, Cert.mk 7 []), (5, Cert.mk 2 []), (7, Cert.mk 2 [])])]), (5, Cert.mk 1 [(2, Cert.mk 7 []), (3, Cert.mk 6 [(2, Cert.mk 7 []), (7, Cert.mk 2 []), (8, Cert.mk 2 [])]), (6, Cert.mk 7 []), (7, Cert.mk 6 [(2, Cert.mk 8 [(3, Cert.mk 0 [])]), (3, Cert.mk 2 []), (8, Cert.mk 2 [])]), (8, Cert.mk 2 [(3, Cert.mk 6 []), (6, Cert.mk 7 []), (7, Cert.mk 6 [])])]), (6, Cert.mk 3 [(1, Cert.mk 5 []), (2, Cert.mk 1 [(5, Cert.mk 7 []), (7, Cert.mk 5 []), (8, Cert.mk 5 [])]), (5, Cert.mk 1 [(2, Cert.mk 7 []), (7, Cert.mk 8 [(2, Cert.mk 0 [])]), (8, Cert.mk 7 [])]), (7, Cert.mk 5 []), (8, Cert.mk 5 [])]), (7, Cert.mk 3 [(1, Cert.mk 2 [(5, Cert.mk 6 []), (6, Cert.mk 5 []), (8, Cert.mk 5 [])]), (2, Cert.mk 5 []), (5, Cert.mk 2 [(1, Cert.mk 6 []), (6, Cert.mk 8 [(1, Cert.mk 0 [])]), (8, Cert.mk 6 [])]), (6, Cert.mk 5 []), (8, Cert.mk 5 [])]), (8, Cert.mk 1 [(2, Cert.mk 5 [(3, Cert.mk 7 []), (6, Cert.mk 3 []), (7, Cert.mk 3 [])]), (3, Cert.mk 6 [(2, Cert.mk 7 []), (5, Cert.mk 2 []), (7, Cert.mk 2 [])]), (5, Cert.mk 2 [(3, Cert.mk 6 []), (6, Cert.mk 7 []), (7, Cert.mk 6 [])]), (6, Cert.mk 7 []), (7, Cert.mk 6 [(2, Cert.mk 5 [(3, Cert.mk 0 [])]), (3, Cert.mk 2 []), (5, Cert.mk 2 [])])])]), (1, Cert.mk 0 [(2, Cert.mk 3 [(4, Cert.mk 6 []), (5, Cert.mk 6 []), (6, Cert.mk 4 [(5, Cert.mk 8 []), (7, Cert.mk 5 []), (8, Cert.mk 5 [])]), (7, Cert.mk 4 [(5, Cert.mk 6 []), (6, Cert.mk 5 []), (8, Cert.mk 5 [])]), (8, Cert.mk 5 [(4, Cert.mk 6 []), (6, Cert.mk 4 []), (7, Cert.mk 4 [])])]), (3, Cert.mk 4 [(2, Cert.mk 8 []), (5, Cert.mk 2 [(6, Cert.mk 8 []), (7, Cert.mk 6 []), (8, Cert.mk 6 [])]), (6, Cert.mk 8 []), (7, Cert.mk 2 [(5, Cert.mk 6 []), (6, Cert.mk 8 []), (8, Cert.mk 6 [])]), (8, Cert.mk 2 [(5, Cert.mk 6 []), (6, Cert.mk 7 [(5, Cert.mk 0 [])]), (7, Cert.mk 6 [])])]), (4, Cert.mk 7 [(2, Cert.mk 6 [(3, Cert.mk 8 []), (5, Cert.mk 3 []), (8, Cert.mk 3 [])]), (3, Cert.mk 5 [(2, Cert.mk 6 [(8, Cert.mk 0 [])]), (6, Cert.mk 2 [(8, Cert.mk 0 [])]), (8, Cert.mk 2 [(6, Cert.mk 0 [])])]), (5, Cert.mk 3 [(2, Cert.mk 6 []), (6, Cert.mk 2 [(8, Cert.mk 0 [])]), (8, Cert.mk 6 [])]), (6, Cert.mk 2 [(3, Cert.mk 5 [(8, Cert.mk 0 [])]), (5, Cert.mk 3 [(8, Cert.mk 0 [])]), (8, Cert.mk 3 [(5, Cert.mk 0 [])])]), (8, Cert.mk 2 [(3, Cert.mk 5 [(6, Cert.mk 0 [])]), (5, Cert.mk 3 [(6, Cert.mk 0 [])]), (6, Cert.mk 3 [(5, Cert.mk 0 [])])])]), (5, Cert.mk 6 [(2, Cert.mk 3 []), (3, Cert.mk 4 [(2, Cert.mk 8 []), (7, Cert.mk 2 []), (8, Cert.mk 2 [])]), (4, Cert.mk 3 []), (7, Cert.mk 3 []), (8, Cert.mk 2 [(3, Cert.mk 4 []), (4, Cert.mk 3 []), (7, Cert.mk 3 [])])]), (6, Cert.mk 4 [(2, Cert.mk 3 [(5, Cert.mk 8 []), (7, Cert.mk 5 []), (8, Cert.mk 5 [])]), (3, Cert.mk 8 []), (5, Cert.mk 8 []), (7, Cert.mk 8 []), (8, Cert.mk 7 [(2, Cert.mk 5 [(3, Cert.mk 0 [])]), (3, Cert.mk 2 [(5, Cert.mk 0 [])]), (5, Cert.mk 2 [(3, Cert.mk 0 [])])])]), (7, Cert.mk 4 [(2, Cert.mk 3 [(5, Cert.mk 6 []), (6, Cert.mk 5 []), (8, Cert.mk 5 [])]), (3, Cert.mk 2 [(5, Cert.mk 6 []), (6, Cert.mk 8 []), (8, Cert.mk 6 [])]), (5, Cert.mk 2 [(3, Cert.mk 6 []), (6, Cert.mk 8 []), (8, Cert.mk 6 [])]), (6, Cert.mk 8 []), (8, Cert.mk 6 [(2, Cert.mk 3 []), (3, Cert.mk 2 []), (5, Cert.mk 2 [])])]), (8, Cert.mk 4 [(2, Cert.mk 5 [(3, Cert.mk 6 [(7, Cert.mk 0 [])]), (6, Cert.mk 3 []), (7, Cert.mk 3 [])]), (3, Cert.mk 2 [(5, Cert.mk 6 []), (6, Cert.mk 7 [(5, Cert.mk 0 [])]), (7, Cert.mk 6 [])]), (5, Cert.mk 2 [(3, Cert.mk 6 []), (6, Cert.mk 7 [(3, Cert.mk 0 [])]), (7, Cert.mk 6 [])]), (6, Cert.mk 7 [(2, Cert.mk 5 [(3, Cert.mk 0 [])]), (3, Cert.mk 2 [(5, Cert.mk 0 [])]), (5, Cert.mk 2 [(3, Cert.mk 0 [])])]), (7, Cert.mk 6 [(2, Cert.mk 3 []), (3, Cert.mk 2 []), (5, Cert.mk 2 [])])])]), (2, Cert.mk 4 [(0, Cert.mk 1 [(3, Cert.mk 7 []), (5, Cert.mk 7 []), (6, Cert.mk 3 [(5, Cert.mk 7 []), (7, Cert.mk 5 []), (8, Cert.mk 5 [])]), (7, Cert.mk 3 [(5, Cert.mk 8 [(6, Cert.mk 0 [])]), (6, Cert.mk 5 []), (8, Cert.mk 5 [])]), (8, Cert.mk 5 [(3, Cert.mk 7 []), (6, Cert.mk 3 []), (7, Cert.mk 3 [])])]), (1, Cert.mk 0 [(3, Cert.mk 8 []), (5, Cert.mk 8 []), (6, Cert.mk 3 [(5, Cert.mk 8 []), (7, Cert.mk 5 []), (8, Cert.mk 5 [])]), (7, Cert.mk 3 [(5, Cert.mk 6 []), (6, Cert.mk 5 []), (8, Cert.mk 5 [])]), (8, Cert.mk 5 [(3, Cert.mk 6 [(7, Cert.mk 0 [])]), (6, Cert.mk 3 []), (7, Cert.mk 3 [])])]), (3, Cert.mk 0 [(1, Cert.mk 8 []), (5, Cert.mk 8 []), (6, Cert.mk 1 [(5, Cert.mk 7 []), (7, Cert.mk 8 []), (8, Cert.mk 7 [])]), (7, Cert.mk 8 []), (8, Cert.mk 5 [(1, Cert.mk 6 [(7, Cert.mk 0 [])]), (6, Cert.mk 7 [(1, Cert.mk 0 [])]), (7, Cert.mk 6 [(1, Cert.mk 0 [])])])]), (5, Cert.mk 8 [(0, Cert.mk 1 [(3, Cert.mk 7 []), (6, Cert.mk 7 []), (7, Cert.mk 3 [(6, Cert.mk 0 [])])]), (1, Cert.mk 0 []), (3, Cert.mk 0 []), (6, Cert.mk 0 []), (7, Cert.mk 0 [])]), (6, Cert.mk 1 [(0, Cert.mk 3 [(5, Cert.mk 7 []), (7, Cert.mk 5 []), (8, Cert.mk 5 [])]), (3, Cert.mk 0 [(5, Cert.mk 7 []), (7, Cert.mk 8 []), (8, Cert.mk 7 [])]), (5, Cert.mk 7 []), (7, Cert.mk 8 [(0, Cert.mk 3 [(5, Cert.mk 0 [])]), (3, Cert.mk 0 []), (5, Cert.mk 0 [])]), (8, Cert.mk 7 [])]), (7, Cert.mk 3 [(0, Cert.mk 5 []), (1, Cert.mk 0 [(5, Cert.mk 6 []), (6, Cert.mk 5 []), (8, Cert.mk 5 [])]), (5, Cert.mk 8 [(0, Cert.mk 1 [(6, Cert.mk 0 [])]), (1, Cert.mk 0 []), (6, Cert.mk 0 [])]), (6, Cert.mk 5 []), (8, Cert.mk 5 [])]), (8, Cert.mk 5 [(0, Cert.mk 1 [(3, Cert.mk 7 []), (6, Cert.mk 3 []), (7, Cert.mk 3 [])]), (1, Cert.mk 3 []), (3, Cert.mk 0 [(1, Cert.mk 6 [(7, Cert.mk 0 [])]), (6, Cert.mk 7 [(1, Cert.mk 0 [])]), (7, Cert.mk 6 [(1, Cert.mk 0 [])])]), (6, Cert.mk 3 []), (7, Cert.mk 3 [])])]), (3, Cert.mk 0 [(1, Cert.mk 4 [(2, Cert.mk 8 []), (5, Cert.mk 2 [(6, Cert.mk 8 []), (7, Cert.mk 6 []), (8, Cert.mk 6 [])]), (6, Cert.mk 8 []), (7, Cert.mk 2 [(5, Cert.mk 6 []), (6, Cert.mk 8 []), (8, Cert.mk 6 [])]), (8, Cert.mk 2 [(5, Cert.mk 6 []), (6, Cert.mk 7 [(5, Cert.mk 0 [])]), (7, Cert.mk 6 [])])]), (2, Cert.mk 4 [(1, Cert.mk 8 []), (5, Cert.mk 8 []), (6, Cert.mk 1 [(5, Cert.mk 7 []), (7, Cert.mk 8 []), (8, Cert.mk 7 [])]), (7, Cert.mk 8 []), (8, Cert.mk 5 [(1, Cert.mk 6 [(7, Cert.mk 0 [])]), (6, Cert.mk 7 [(1, Cert.mk 0 [])]), (7, Cert.mk 6 [(1, Cert.mk 0 [])])])]), (4, Cert.mk 5 [(1, Cert.mk 7 [(2, Cert.mk 6 [(8, Cert.mk 0 [])]), (6, Cert.mk 2 [(8, Cert.mk 0 [])]), (8, Cert.mk 2 [(6, Cert.mk 0 [])])]), (2, Cert.mk 6 [(1, Cert.mk 7 [(8, Cert.mk 0 [])]), (7, Cert.mk 1 [(8, Cert.mk 0 [])]), (8, Cert.mk 1 [(7, Cert.mk 0 [])])]), (6, Cert.mk 2 [(1, Cert.mk 8 []), (7, Cert.mk 1 []), (8, Cert.mk 1 [])]), (7, Cert.mk 1 [(2, Cert.mk 6 [(8, Cert.mk 0 [])]), (6, Cert.mk 2 []), (8, Cert.mk 2 [])]), (8, Cert.mk 1 [(2, Cert.mk 6 [(7, Cert.mk 0 [])]), (6, Cert.mk 2 []), (7, Cert.mk 2 [])])]), (5, Cert.mk 4 [(1, Cert.mk 2 [(6, Cert.mk 8 []), (7, Cert.mk 6 []), (8, Cert.mk 6 [])]), (2, Cert.mk 8 []), (6, Cert.mk 1 [(2, Cert.mk 7 []), (7, Cert.mk 2 []), (8, Cert.mk 2 [])]), (7, Cert.mk 1 [(2, Cert.mk 8 []), (6, Cert.mk 2 []), (8, Cert.mk 2 [])]), (8, Cert.mk 2 [(1, Cert.mk 6 []), (6, Cert.mk 1 []), (7, Cert.mk 1 [])])]), (6, Cert.mk 1 [(2, Cert.mk 4 [(5, Cert.mk 7 []), (7, Cert.mk 8 []), (8, Cert.mk 7 [])]), (4, Cert.mk 2 []), (5, Cert.mk 2 []), (7, Cert.mk 2 []), (8, Cert.mk 2 [])]), (7, Cert.mk 2 [(1, Cert.mk 4 [(5, Cert.mk 6 []), (6, Cert.mk 8 []), (8, Cert.mk 6 [])]), (4, Cert.mk 1 []), (5, Cert.mk 1 []), (6, Cert.mk 1 []), (8, Cert.mk 1 [])]), (8, Cert.mk 2 [(1, Cert.mk 4 [(5, Cert.mk 6 []), (6, Cert.mk 7 [(5, Cert.mk 0 [])]), (7, Cert.mk 6 [])]), (4, Cert.mk 1 []), (5, Cert.mk 1 []), (6, Cert.mk 1 []), (7, Cert.mk 1 [])])]), (4, Cert.mk 0 [(1, Cert.mk 7 [(2, Cert.mk 6 [(3, Cert.mk 8 []), (5, Cert.mk 3 []), (8, Cert.mk 3 [])]), (3, Cert.mk 5 [(2, Cert.mk 6 [(8, Cert.mk 0 [])]), (6, Cert.mk 2 [(8, Cert.mk 0 [])]), (8, Cert.mk 2 [(6, Cert.mk 0 [])])]), (5, Cert.mk 3 [(2, Cert.mk 6 []), (6, Cert.mk 2 [(8, Cert.mk 0 [])]), (8, Cert.mk 6 [])]), (6, Cert.mk 2 [(3, Cert.mk 5 [(8, Cert.mk 0 [])]), (5, Cert.mk 3 [(8, Cert.mk 0 [])]), (8, Cert.mk 3 [(5, Cert.mk 0 [])])]), (8, Cert.mk 2 [(3, Cert.mk 5 [(6, Cert.mk 0 [])]), (5, Cert.mk 3 [(6, Cert.mk 0 [])]), (6, Cert.mk 3 [(5, Cert.mk 0 [])])])]), (2, Cert.mk 6 [(1, Cert.mk 3 []), (3, Cert.mk 5 [(1, Cert.mk 7 [(8, Cert.mk 0 [])]), (7, Cert.mk 1 [(8, Cert.mk 0 [])]), (8, Cert.mk 1 [(7, Cert.mk 0 [])])]), (5, Cert.mk 3 []), (7, Cert.mk 3 []), (8, Cert.mk 3 [])]), (3, Cert.mk 5 [(1, Cert.mk 7 [(2, Cert.mk 6 [(8, Cert.mk 0 [])]), (6, Cert.mk 2 [(8, Cert.mk 0 [])]), (8, Cert.mk 2 [(6, Cert.mk 0 [])])]), (2, Cert.mk 6 [(1, Cert.mk 7 [(8, Cert.mk 0 [])]), (7, Cert.mk 1 [(8, Cert.mk 0 [])]), (8, Cert.mk 1 [(7, Cert.mk 0 [])])]), (6, Cert.mk 2 [(1, Cert.mk 8 []), (7, Cert.mk 1 []), (8, Cert.mk 1 [])]), (7, Cert.mk 1 [(2, Cert.mk 6 [(8, Cert.mk 0 [])]), (6, Cert.mk 2 []), (8, Cert.mk 2 [])]), (8, Cert.mk 1 [(2, Cert.mk 6 [(7, Cert.mk 0 [])]), (6, Cert.mk 2 []), (7, Cert.mk 2 [])])]), (5, Cert.mk 3 [(1, Cert.mk 6 []), (2, Cert.mk 6 []), (6, Cert.mk 2 [(1, Cert.mk 7 [(8, Cert.mk 0 [])]), (7, Cert.mk 1 []), (8, Cert.mk 1 [])]), (7, Cert.mk 1 [(2, Cert.mk 6 []), (6, Cert.mk 2 []), (8, Cert.mk 2 [])]), (8, Cert.mk 2 [(1, Cert.mk 6 []), (6, Cert.mk 1 []), (7, Cert.mk 1 [])])]), (6, Cert.mk 2 [(1, Cert.mk 7 [(3, Cert.mk 5 [(8, Cert.mk 0 [])]), (5, Cert.mk 3 [(8, Cert.mk 0 [])]), (8, Cert.mk 3 [(5, Cert.mk 0 [])])]), (3, Cert.mk 1 []), (5, Cert.mk 1 []), (7, Cert.mk 1 []), (8, Cert.mk 1 [])]), (7, Cert.mk 1 [(2, Cert.mk 6 [(3, Cert.mk 5 [(8, Cert.mk 0 [])]), (5, Cert.mk 3 []), (8, Cert.mk 3 [])]), (3, Cert.mk 2 []), (5, Cert.mk 2 []), (6, Cert.mk 2 []), (8, Cert.mk 2 [])]), (8, Cert.mk 2 [(1, Cert.mk 7 [(3, Cert.mk 5 [(6, Cert.mk 0 [])]), (5, Cert.mk 3 [(6, Cert.mk 0 [])]), (6, Cert.mk 3 [(5, Cert.mk 0 [])])]), (3, Cert.mk 1 []), (5, Cert.mk 1 []), (6, Cert.mk 1 []), (7, Cert.mk 1 [])])]), (5, Cert.mk 2 [(0, Cert.mk 3 [(1, Cert.mk 4 [(6, Cert.mk 7 [(8, Cert.mk 0 [])]), (7, Cert.mk 6 []), (8, Cert.mk 6 [])]), (4, Cert.mk 8 [(1, Cert.mk 7 [(6, Cert.mk 0 [])]), (6, Cert.mk 1 [(7, Cert.mk 0 [])]), (7, Cert.mk 1 [(6, Cert.mk 0 [])])]), (6, Cert.mk 4 [(1, Cert.mk 7 [(8, Cert.mk 0 [])]), (7, Cert.mk 8 [(1, Cert.mk 0 [])]), (8, Cert.mk 7 [(1, Cert.mk 0 [])])]), (7, Cert.mk 4 [(1, Cert.mk 6 []), (6, Cert.mk 8 [(1, Cert.mk 0 [])]), (8, Cert.mk 6 [])]), (8, Cert.mk 4 [(1, Cert.mk 6 []), (6, Cert.mk 7 [(1, Cert.mk 0 [])]), (7, Cert.mk 6 [])])]), (1, Cert.mk 3 [(0, Cert.mk 4 [(6, Cert.mk 7 [(8, Cert.mk 0 [])]), (7, Cert.mk 6 []), (8, Cert.mk 6 [])]), (4, Cert.mk 7 [(0, Cert.mk 8 [(6, Cert.mk 0 [])]), (6, Cert.mk 0 [(8, Cert.mk 0 [])]), (8, Cert.mk 0 [(6, Cert.mk 0 [])])]), (6, Cert.mk 4 [(0, Cert.mk 7 [(8, Cert.mk 0 [])]), (7, Cert.mk 8 [(0, Cert.mk 0 [])]), (8, Cert.mk 7 [(0, Cert.mk 0 [])])]), (7, Cert.mk 4 [(0, Cert.mk 6 []), (6, Cert.mk 8 [(0, Cert.mk 0 [])]), (8, Cert.mk 6 [])]), (8, Cert.mk 6 [(0, Cert.mk 4 []), (4, Cert.mk 0 []), (7, Cert.mk 0 [])])]), (3, Cert.mk 4 [(0, Cert.mk 6 []), (1, Cert.mk 0 [(6, Cert.mk 8 []), (7, Cert.mk 6 []), (8, Cert.mk 6 [])]), (6, Cert.mk 0 [(1, Cert.mk 8 []), (7, Cert.mk 1 []), (8, Cert.mk 1 [])]), (7, Cert.mk 0 [(1, Cert.mk 6 []), (6, Cert.mk 1 []), (8, Cert.mk 1 [])]), (8, Cert.mk 0 [(1, Cert.mk 6 []), (6, Cert.mk 1 []), (7, Cert.mk 1 [])])]), (4, Cert.mk 3 [(0, Cert.mk 8 [(1, Cert.mk 7 [(6, Cert.mk 0 [])]), (6, Cert.mk 1 [(7, Cert.mk 0 [])]), (7, Cert.mk 1 [(6, Cert.mk 0 [])])]), (1, Cert.mk 7 [(0, Cert.mk 8 [(6, Cert.mk 0 [])]), (6, Cert.mk 0 [(8, Cert.mk 0 [])]), (8, Cert.mk 0 [(6, Cert.mk 0 [])])]), (6, Cert.mk 0 [(1, Cert.mk 7 [(8, Cert.mk 0 [])]), (7, Cert.mk 1 []), (8, Cert.mk 1 [])]), (7, Cert.mk 1 [(0, Cert.mk 8 [(6, Cert.mk 0 [])]), (6, Cert.mk 0 []), (8, Cert.mk 0 [])]), (8, Cert.mk 0 [(1, Cert.mk 6 []), (6, Cert.mk 1 []), (7, Cert.mk 1 [])])]), (6, Cert.mk 0 [(1, Cert.mk 4 [(3, Cert.mk 8 []), (7, Cert.mk 8 []), (8, Cert.mk 7 [(3, Cert.mk 0 [])])]), (3, Cert.mk 1 []), (4, Cert.mk 1 []), (7, Cert.mk 1 []), (8, Cert.mk 1 [])]), (7, Cert.mk 0 [(1, Cert.mk 4 [(3, Cert.mk 6 []), (6, Cert.mk 8 []), (8, Cert.mk 6 [])]), (3, Cert.mk 1 []), (4, Cert.mk 1 []), (6, Cert.mk 1 []), (8, Cert.mk 1 [])]), (8, Cert.mk 0 [(1, Cert.mk 6 [(3, Cert.mk 4 []), (4, Cert.mk 3 []), (7, Cert.mk 3 [])]), (3, Cert.mk 1 []), (4, Cert.mk 1 []), (6, Cert.mk 1 []), (7, Cert.mk 1 [])])]), (6, Cert.mk 4 [(0, Cert.mk 3 [(1, Cert.mk 5 []), (2, Cert.mk 1 [(5, Cert.mk 7 []), (7, Cert.mk 5 []), (8, Cert.mk 5 [])]), (5, Cert.mk 1 [(2, Cert.mk 7 []), (7, Cert.mk 8 [(2, Cert.mk 0 [])]), (8, Cert.mk 7 [])]), (7, Cert.mk 5 []), (8, Cert.mk 5 [])]), (1, Cert.mk 0 [(2, Cert.mk 3 [(5, Cert.mk 8 []), (7, Cert.mk 5 []), (8, Cert.mk 5 [])]), (3, Cert.mk 8 []), (5, Cert.mk 8 []), (7, Cert.mk 8 []), (8, Cert.mk 7 [(2, Cert.mk 5 [(3, Cert.mk 0 [])]), (3, Cert.mk 2 [(5, Cert.mk 0 [])]), (5, Cert.mk 2 [(3, Cert.mk 0 [])])])]), (2, Cert.mk 1 [(0, Cert.mk 3 [(5, Cert.mk 7 []), (7, Cert.mk 5 []), (8, Cert.mk 5 [])]), (3, Cert.mk 0 [(5, Cert.mk 7 []), (7, Cert.mk 8 []), (8, Cert.mk 7 [])]), (5, Cert.mk 7 []), (7, Cert.mk 8 [(0, Cert.mk 3 [(5, Cert.mk 0 [])]), (3, Cert.mk 0 []), (5, Cert.mk 0 [])]), (8, Cert.mk 7 [])]), (3, Cert.mk 0 [(1, Cert.mk 8 []), (2, Cert.mk 1 [(5, Cert.mk 7 []), (7, Cert.mk 8 []), (8, Cert.mk 7 [])]), (5, Cert.mk 1 [(2, Cert.mk 7 []), (7, Cert.mk 2 []), (8, Cert.mk 2 [])]), (7, Cert.mk 8 []), (8, Cert.mk 7 [(1, Cert.mk 2 [(5, Cert.mk 0 [])]), (2, Cert.mk 1 []), (5, Cert.mk 1 [])])]), (5, Cert.mk 1 [(0, Cert.mk 7 []), (2, Cert.mk 7 []), (3, Cert.mk 0 [(2, Cert.mk 7 []), (7, Cert.mk 2 []), (8, Cert.mk 2 [])]), (7, Cert.mk 8 [(0, Cert.mk 3 [(2, Cert.mk 0 [])]), (2, Cert.mk 0 []), (3, Cert.mk 0 [])]), (8, Cert.mk 7 [])]), (7, Cert.mk 8 [(0, Cert.mk 3 [(1, Cert.mk 5 []), (2, Cert.mk 5 []), (5, Cert.mk 1 [(2, Cert.mk 0 [])])]), (1, Cert.mk 0 []), (2, Cert.mk 0 []), (3, Cert.mk 0 []), (5, Cert.mk 0 [])]), (8, Cert.mk 7 [(0, Cert.mk 1 []), (1, Cert.mk 0 [(2, Cert.mk 5 [(3, Cert.mk 0 [])]), (3, Cert.mk 2 [(5, Cert.mk 0 [])]), (5, Cert.mk 2 [(3, Cert.mk 0 [])])]), (2, Cert.mk 1 []), (3, Cert.mk 1 []), (5, Cert.mk 1 [])])]), (7, Cert.mk 1 [(0, Cert.mk 6 [(2, Cert.mk 4 [(3, Cert.mk 5 [(8, Cert.mk 0 [])]), (5, Cert.mk 8 [(3, Cert.mk 0 [])]), (8, Cert.mk 5 [(3, Cert.mk 0 [])])]), (3, Cert.mk 4 [(2, Cert.mk 5 [(8, Cert.mk 0 [])]), (5, Cert.mk 2 []), (8, Cert.mk 2 [])]), (4, Cert.mk 8 [(2, Cert.mk 3 [(5, Cert.mk 0 [])]), (3, Cert.mk 5 [(2, Cert.mk 0 [])]), (5, Cert.mk 3 [(2, Cert.mk 0 [])])]), (5, Cert.mk 4 [(2, Cert.mk 8 [(3, Cert.mk 0 [])]), (3, Cert.mk 2 []), (8, Cert.mk 2 [])]), (8, Cert.mk 4 [(2, Cert.mk 5 [(3, Cert.mk 0 [])]), (3, Cert.mk 2 []), (5, Cert.mk 2 [])])]), (2, Cert.mk 6 [(0, Cert.mk 4 [(3, Cert.mk 5 [(8, Cert.mk 0 [])]), (5, Cert.mk 8 [(3, Cert.mk 0 [])]), (8, Cert.mk 5 [(3, Cert.mk 0 [])])]), (3, Cert.mk 4 [(0, Cert.mk 5 [(8, Cert.mk 0 [])]), (5, Cert.mk 8 [(0, Cert.mk 0 [])]), (8, Cert.mk 5 [(0, Cert.mk 0 [])])]), (4, Cert.mk 0 [(3, Cert.mk 5 [(8, Cert.mk 0 [])]), (5, Cert.mk 3 []), (8, Cert.mk 3 [])]), (5, Cert.mk 8 [(0, Cert.mk 3 [(4, Cert.mk 0 [])]), (3, Cert.mk 4 [(0, Cert.mk 0 [])]), (4, Cert.mk 3 [(0, Cert.mk 0 [])])]), (8, Cert.mk 5 [(0, Cert.mk 4 [(3, Cert.mk 0 [])]), (3, Cert.mk 0 [(4, Cert.mk 0 [])]), (4, Cert.mk 0 [(3, Cert.mk 0 [])])])]), (3, Cert.mk 6 [(0, Cert.mk 4 [(2, Cert.mk 5 [(8, Cert.mk 0 [])]), (5, Cert.mk 2 []), (8, Cert.mk 2 [])]), (2, Cert.mk 4 [(0, Cert.mk 5 [(8, Cert.mk 0 [])]), (5, Cert.mk 8 [(0, Cert.mk 0 [])]), (8, Cert.mk 5 [(0, Cert.mk 0 [])])]), (4, Cert.mk 5 [(0, Cert.mk 8 [(2, Cert.mk 0 [])]), (2, Cert.mk 0 [(8, Cert.mk 0 [])]), (8, Cert.mk 0 [(2, Cert.mk 0 [])])]), (5, Cert.mk 4 [(0, Cert.mk 2 []), (2, Cert.mk 8 [(0, Cert.mk 0 [])]), (8, Cert.mk 2 [])]), (8, Cert.mk 2 [(0, Cert.mk 4 []), (4, Cert.mk 0 []), (5, Cert.mk 0 [])])]), (4, Cert.mk 0 [(2, Cert.mk 6 [(3, Cert.mk 5 [(8, Cert.mk 0 [])]), (5, Cert.mk 3 []), (8, Cert.mk 3 [])]), (3, Cert.mk 2 []), (5, Cert.mk 2 []), (6, Cert.mk 2 []), (8, Cert.mk 2 [])]), (5, Cert.mk 6 [(0, Cert.mk 4 [(2, Cert.mk 8 [(3, Cert.mk 0 [])]), (3, Cert.mk 2 []), (8, Cert.mk 2 [])]), (2, Cert.mk 8 [(0, Cert.mk 3 [(4, Cert.mk 0 [])]), (3, Cert.mk 4 [(0, Cert.mk 0 [])]), (4, Cert.mk 3 [(0, Cert.mk 0 [])])]), (3, Cert.mk 4 [(0, Cert.mk 2 []), (2, Cert.mk 8 [(0, Cert.mk 0 [])]), (8, Cert.mk 2 [])]), (4, Cert.mk 3 [(0, Cert.mk 8 [(2, Cert.mk 0 [])]), (2, Cert.mk 0 []), (8, Cert.mk 0 [])]), (8, Cert.mk 2 [(0, Cert.mk 4 []), (3, Cert.mk 0 []), (4, Cert.mk 0 [])])]), (6, Cert.mk 8 [(0, Cert.mk 3 [(2, Cert.mk 4 [(5, Cert.mk 0 [])]), (4, Cert.mk 2 [(5, Cert.mk 0 [])]), (5, Cert.mk 2 [(4, Cert.mk 0 [])])]), (2, Cert.mk 4 [(0, Cert.mk 3 [(5, Cert.mk 0 [])]), (3, Cert.mk 0 []), (5, Cert.mk 0 [])]), (3, Cert.mk 0 [(2, Cert.mk 4 []), (4, Cert.mk 2 []), (5, Cert.mk 2 [])]), (4, Cert.mk 2 [(0, Cert.mk 5 []), (3, Cert.mk 0 []), (5, Cert.mk 0 [])]), (5, Cert.mk 0 [(2, Cert.mk 4 []), (3, Cert.mk 2 []), (4, Cert.mk 2 [])])]), (8, Cert.mk 6 [(0, Cert.mk 4 [(2, Cert.mk 5 [(3, Cert.mk 0 [])]), (3, Cert.mk 2 []), (5, Cert.mk 2 [])]), (2, Cert.mk 5 [(0, Cert.mk 4 [(3, Cert.mk 0 [])]), (3, Cert.mk 0 [(4, Cert.mk 0 [])]), (4, Cert.mk 0 [(3, Cert.mk 0 [])])]), (3, Cert.mk 2 [(0, Cert.mk 4 []), (4, Cert.mk 0 []), (5, Cert.mk 0 [])]), (4, Cert.mk 0 [(2, Cert.mk 3 []), (3, Cert.mk 2 []), (5, Cert.mk 2 [])]), (5, Cert.mk 2 [(0, Cert.mk 4 []), (3, Cert.mk 0 []), (4, Cert.mk 0 [])])])]), (8, Cert.mk 4 [(0, Cert.mk 1 [(2, Cert.mk 5 [(3, Cert.mk 7 []), (6, Cert.mk 3 []), (7, Cert.mk 3 [])]), (3, Cert.mk 6 [(2, Cert.mk 7 []), (5, Cert.mk 2 []), (7, Cert.mk 2 [])]), (5, Cert.mk 2 [(3, Cert.mk 6 []), (6, Cert.mk 7 []), (7, Cert.mk 6 [])]), (6, Cert.mk 7 []), (7, Cert.mk 6 [(2, Cert.mk 5 [(3, Cert.mk 0 [])]), (3, Cert.mk 2 []), (5, Cert.mk 2 [])])]), (1, Cert.mk 0 [(2, Cert.mk 5 [(3, Cert.mk 6 [(7, Cert.mk 0 [])]), (6, Cert.mk 3 []), (7, Cert.mk 3 [])]), (3, Cert.mk 2 [(5, Cert.mk 6 []), (6, Cert.mk 7 [(5, Cert.mk 0 [])]), (7, Cert.mk 6 [])]), (5, Cert.mk 2 [(3, Cert.mk 6 []), (6, Cert.mk 7 [(3, Cert.mk 0 [])]), (7, Cert.mk 6 [])]), (6, Cert.mk 7 [(2, Cert.mk 5 [(3, Cert.mk 0 [])]), (3, Cert.mk 2 [(5, Cert.mk 0 [])]), (5, Cert.mk 2 [(3, Cert.mk 0 [])])]), (7, Cert.mk 6 [(2, Cert.mk 3 []), (3, Cert.mk 2 []), (5, Cert.mk 2 [])])]), (2, Cert.mk 5 [(0, Cert.mk 1 [(3, Cert.mk 7 []), (6, Cert.mk 3 []), (7, Cert.mk 3 [])]), (1, Cert.mk 3 []), (3, Cert.mk 0 [(1, Cert.mk 6 [(7, Cert.mk 0 [])]), (6, Cert.mk 7 [(1, Cert.mk 0 [])]), (7, Cert.mk 6 [(1, Cert.mk 0 [])])]), (6, Cert.mk 3 []), (7, Cert.mk 3 [])]), (3, Cert.mk 0 [(1, Cert.mk 2 [(5, Cert.mk 6 []), (6, Cert.mk 7 [(5, Cert.mk 0 [])]), (7, Cert.mk 6 [])]), (2, Cert.mk 5 [(1, Cert.mk 6 [(7, Cert.mk 0 [])]), (6, Cert.mk 7 [(1, Cert.mk 0 [])]), (7, Cert.mk 6 [(1, Cert.mk 0 [])])]), (5, Cert.mk 2 [(1, Cert.mk 6 []), (6, Cert.mk 1 []), (7, Cert.mk 1 [])]), (6, Cert.mk 7 [(1, Cert.mk 2 [(5, Cert.mk 0 [])]), (2, Cert.mk 1 []), (5, Cert.mk 1 [])]), (7, Cert.mk 6 [(1, Cert.mk 2 []), (2, Cert.mk 5 [(1, Cert.mk 0 [])]), (5, Cert.mk 2 [])])]), (5, Cert.mk 2 [(0, Cert.mk 1 [(3, Cert.mk 6 []), (6, Cert.mk 7 []), (7, Cert.mk 6 [])]), (1, Cert.mk 6 []), (3, Cert.mk 0 [(1, Cert.mk 6 []), (6, Cert.mk 1 []), (7, Cert.mk 1 [])]), (6, Cert.mk 7 [(0, Cert.mk 1 []), (1, Cert.mk 0 [(3, Cert.mk 0 [])]), (3, Cert.mk 1 [])]), (7, Cert.mk 6 [])]), (6, Cert.mk 7 [(0, Cert.mk 1 []), (1, Cert.mk 0 [(2, Cert.mk 5 [(3, Cert.mk 0 [])]), (3, Cert.mk 2 [(5, Cert.mk 0 [])]), (5, Cert.mk 2 [(3, Cert.mk 0 [])])]), (2, Cert.mk 1 []), (3, Cert.mk 1 []), (5, Cert.mk 1 [])]), (7, Cert.mk 6 [(0, Cert.mk 2 []), (1, Cert.mk 0 [(2, Cert.mk 3 []), (3, Cert.mk 2 []), (5, Cert.mk 2 [])]), (2, Cert.mk 5 [(0, Cert.mk 3 []), (1, Cert.mk 3 []), (3, Cert.mk 0 [(1, Cert.mk 0 [])])]), (3, Cert.mk 2 []), (5, Cert.mk 2 [])])])]

set_option maxHeartbeats 2000000 in
theorem secured_first_X :
    secured Player.X 20 certFirst (Board.new Player.X Difficulty.DIFFICULT) = true := by
  decide!

set_option maxHeartbeats 4000000 in
theorem secured_second_O :
    secured Player.O 20 certSecond (Board.new Player.X Difficulty.DIFFICULT) = true := by
  decide!

set_option maxHeartbeats 2000000 in
theorem secured_first_O :
    secured Player.O 20 certFirst (Board.new Player.O Difficulty.DIFFICULT) = true := by
  decide!

set_option maxHeartbeats 4000000 in
theorem secured_second_X :
    secured Player.X 20 certSecond (Board.new Player.O Difficulty.DIFFICULT) = true := by
  decide!

theorem val_base_first_X :
    0 ≤ (minimax Player.O 9 (Board.new Player.X Difficulty.DIFFICULT)).1 :=
  secured_sound Player.X Player.O (Or.inl ⟨rfl, rfl⟩) 20 certFirst _
    (good_new Player.X Difficulty.DIFFICULT (Or.inl rfl)) secured_first_X

theorem val_base_second_O :
    0 ≤ (minimax Player.X 9 (Board.new Player.X Difficulty.DIFFICULT)).1 :=
  secured_sound Player.O Player.X (Or.inr ⟨rfl, rfl⟩) 20 certSecond _
    (good_new Player.X Difficulty.DIFFICULT (Or.inl rfl)) secured_second_O

theorem val_base_first_O :
    0 ≤ (minimax Player.X 9 (Board.new Player.O Difficulty.DIFFICULT)).1 :=
  secured_sound Player.O Player.X (Or.inr ⟨rfl, rfl⟩) 20 certFirst _
    (good_new Player.O Difficulty.DIFFICULT (Or.inr rfl)) secured_first_O

theorem val_base_second_X :
    0 ≤ (minimax Player.O 9 (Board.new Player.O Difficulty.DIFFICULT)).1 :=
  secured_sound Player.X Player.O (Or.inl ⟨rfl, rfl⟩) 20 certSecond _
    (good_new Player.O Difficulty.DIFFICULT (Or.inr rfl)) secured_second_X

/-- C4: on an empty board with Hard difficulty, for every strategy of the
opponent (any rule `σ` that picks an available move while the game is in
progress), the game in which the engine always plays `get_best_move` (on
its turns, whether it moves first or second, as either mark) ends in a
draw or an engine win — `get_best_move` never lets the opponent force a
win. -/
theorem c4_hard_engine_never_loses (E start : Player) (σ : Board → Nat)
    (hE : E = Player.X ∨ E = Player.O)
    (hst : start = Player.X ∨ start = Player.O)
    (hσ : ∀ b : Board, Good b → b.status = State.INPROGRESS →
      σ b ∈ find_available_moves b)
    (fuel : Nat) (hfuel : 9 ≤ fuel) :
    (play E σ fuel (Board.new start Difficulty.DIFFICULT)).status =
        State.DRAW ∨
    ((play E σ fuel (Board.new start Difficulty.DIFFICULT)).status =
        State.RESULTED ∧
      (play E σ fuel (Board.new start Difficulty.DIFFICULT)).winner = E) := by
  rcases hE with hE | hE <;> rcases hst with hst | hst <;> subst hE <;> subst hst
  · exact play_outcome Player.X Player.O (Or.inl ⟨rfl, rfl⟩) σ hσ fuel _
      ⟨good_new Player.X Difficulty.DIFFICULT (Or.inl rfl), val_base_first_X,
        fun h => absurd h (by decide)⟩
      (by have : (Board.new Player.X Difficulty.DIFFICULT).moves.length = 0 := rfl
          omega)
  · exact play_outcome Player.X Player.O (Or.inl ⟨rfl, rfl⟩) σ hσ fuel _
      ⟨good_new Player.O Difficulty.DIFFICULT (Or.inr rfl), val_base_second_X,
        fun h => absurd h (by decide)⟩
      (by have : (Board.new Player.O Difficulty.DIFFICULT).moves.length = 0 := rfl
          omega)
  · exact play_outcome Player.O Player.X (Or.inr ⟨rfl, rfl⟩) σ hσ fuel _
      ⟨good_new Player.X Difficulty.DIFFICULT (Or.inl rfl), val_base_second_O,
        fun h => absurd h (by decide)⟩
      (by have : (Board.new Player.X Difficulty.DIFFICULT).moves.length = 0 := rfl
          omega)
  · exact play_outcome Player.O Player.X (Or.inr ⟨rfl, rfl⟩) σ hσ fuel _
      ⟨good_new Player.O Difficulty.DIFFICULT (Or.inr rfl), val_base_first_O,
        fun h => absurd h (by decide)⟩
      (by have : (Board.new Player.O Difficulty.DIFFICULT).moves.length = 0 := rfl
          omega)

/-- The head of a nonempty list (with default) is a member. -/
theorem headD_mem (l : List Nat) (h : l ≠ []) : l.headD 0 ∈ l := by
  cases l with
  | nil => exact absurd rfl h
  | cons a t =>
    rw [List.headD_cons]
    exact List.mem_cons_self a t

/-- C4, witness: engine `X` moving first against the "take the first
available cell" opponent, with fuel 9. -/
theorem c4_hard_engine_never_loses_witness :
    (play Player.X (fun b => (find_available_moves b).headD 0) 9
      (Board.new Player.X Difficulty.DIFFICULT)).status = State.DRAW ∨
    ((play Player.X (fun b => (find_available_moves b).headD 0) 9
      (Board.new Player.X Difficulty.DIFFICULT)).status = State.RESULTED ∧
      (play Player.X (fun b => (find_available_moves b).headD 0) 9
        (Board.new Player.X Difficulty.DIFFICULT)).winner = Player.X) :=
  c4_hard_engine_never_loses Player.X Player.X
    (fun b => (find_available_moves b).headD 0) (Or.inl rfl) (Or.inl rfl)
    (fun b G hip => by
      have h1 : b.status ≠ State.RESULTED := by rw [hip]; decide
      have h2 : b.status ≠ State.DRAW := by rw [hip]; decide
      exact headD_mem _ (available_nonempty b G (good_inprogress_len b G h1 h2)))
    9 (by omega)

end C4

end TicTacToe
